import Mathlib

/-!
Verification development for the chat/session core of the openvino-ai-toolkit
repository (src/chat_service.py and src/prompt_improvement_engine.py).

The Python code is shallowly embedded: strings are `List Char`, wall-clock
times are `Nat`, the external model load and the external generation call are
parameters of the `chat` step (an `Except` outcome injected by the caller),
and the two mutex-protected registries (model cache, session store) are plain
fields of an explicit `ServiceState` threaded through each operation, in the
same order in which the Python code mutates them under its locks.

Modelling conventions, fixed once here:
- Python `str.strip` / regex `\s` use one common whitespace predicate
  `isSpace` (ASCII whitespace plus NBSP and the ideographic space);
- regex `\w` (used only through `\b[a-zA-Z]+\b`) is modelled by `isWordChar`,
  covering ASCII alphanumerics, underscore and the Japanese / CJK letter
  ranges this program processes;
- `str.lower` is modelled by `asciiLower` (ASCII letters only; the Japanese
  keywords the code matches are unaffected by lowercasing);
- `datetime.now()` is a `now : Nat` argument supplied per public call, and
  `uuid.uuid4()` is a `freshId : String` argument;
- Python dict preserves insertion order, so the session store is an
  insertion-ordered association list: deletion filters, re-assignment updates
  in place, fresh assignment appends.
-/

namespace OVChat

/-- Strings of the embedded program are lists of characters. -/
abbrev Str := List Char

/-- Whitespace predicate shared by the embeddings of `str.strip` and of the
regex class `\s`: ASCII whitespace, NBSP (U+00A0) and the ideographic space
(U+3000). -/
def isSpace (c : Char) : Bool :=
  c == ' ' || c == '\t' || c == '\n' || c == '\r' ||
  c == Char.ofNat 0x0b || c == Char.ofNat 0x0c ||
  c == Char.ofNat 0xa0 || c == Char.ofNat 0x3000

/-- ASCII letter a-z or A-Z (the regex class `[a-zA-Z]`). -/
def isAsciiLetter (c : Char) : Bool :=
  (97 ≤ c.toNat && c.toNat ≤ 122) || (65 ≤ c.toNat && c.toNat ≤ 90)

/-- Word character for the regex `\b` boundary (`\w`): ASCII alphanumerics,
underscore, and the Japanese/CJK letter ranges handled by this program
(kana, iteration marks, prolonged sound mark, CJK ideographs, fullwidth
alphanumerics). -/
def isWordChar (c : Char) : Bool :=
  c.isAlphanum || c == '_' ||
  (0x3005 ≤ c.toNat && c.toNat ≤ 0x3007) ||
  (0x3041 ≤ c.toNat && c.toNat ≤ 0x3096) ||
  (0x309d ≤ c.toNat && c.toNat ≤ 0x309f) ||
  (0x30a1 ≤ c.toNat && c.toNat ≤ 0x30fa) ||
  (0x30fc ≤ c.toNat && c.toNat ≤ 0x30ff) ||
  (0x3400 ≤ c.toNat && c.toNat ≤ 0x4dbf) ||
  (0x4e00 ≤ c.toNat && c.toNat ≤ 0x9fff) ||
  (0xff10 ≤ c.toNat && c.toNat ≤ 0xff19) ||
  (0xff21 ≤ c.toNat && c.toNat ≤ 0xff3a) ||
  (0xff41 ≤ c.toNat && c.toNat ≤ 0xff5a)

/-- Embedding of `str.lower` restricted to ASCII letters (the only characters
this program matches case-insensitively). -/
def asciiLower (c : Char) : Char :=
  if 65 ≤ c.toNat && c.toNat ≤ 90 then Char.ofNat (c.toNat + 32) else c

/-- Does the haystack start with the needle (first argument)? -/
def startsWithL : Str → Str → Bool
  | [], _ => true
  | _ :: _, [] => false
  | a :: as, b :: bs => a == b && startsWithL as bs

/-- Python `needle in haystack`: substring containment. -/
def containsSub (needle : Str) : Str → Bool
  | [] => needle.isEmpty
  | b :: bs => startsWithL needle (b :: bs) || containsSub needle bs

/-- Python `s.split(sep)` for a one-character separator. -/
def splitOnChar (sep : Char) : Str → List Str
  | [] => [[]]
  | c :: rest =>
    if c == sep then [] :: splitOnChar sep rest
    else
      match splitOnChar sep rest with
      | [] => [[c]]
      | s :: ss => (c :: s) :: ss

/-- Python `sep.join(parts)`. -/
def joinSep (sep : Str) : List Str → Str
  | [] => []
  | [x] => x
  | x :: y :: rest => x ++ sep ++ joinSep sep (y :: rest)

/-- Strip characters satisfying `p` from the right end. -/
def rstripBy (p : Char → Bool) (l : Str) : Str :=
  (l.reverse.dropWhile p).reverse

/-- Embedding of Python `str.strip()` (no arguments: whitespace). -/
def pyStrip (l : Str) : Str :=
  rstripBy isSpace (l.dropWhile isSpace)

/-- Embedding of Python `str.rstrip(chars)`. -/
def pyRstripChars (cs : List Char) (l : Str) : Str :=
  rstripBy (fun c => cs.contains c) l

/-- Embedding of Python `str.lstrip(chars)`. -/
def pyLstripChars (cs : List Char) (l : Str) : Str :=
  l.dropWhile (fun c => cs.contains c)

/-- Worker for `replaceAll`; the first argument counts characters still to be
skipped (the tail of a matched occurrence, already replaced). The skip
counter keeps the recursion structural, so that the definition reduces. -/
def replaceAllAux (old new : Str) : Nat → Str → Str
  | _, [] => []
  | k + 1, _ :: rest => replaceAllAux old new k rest
  | 0, c :: rest =>
    if old ≠ [] ∧ startsWithL old (c :: rest) = true then
      new ++ replaceAllAux old new (old.length - 1) rest
    else
      c :: replaceAllAux old new 0 rest

/-- Embedding of Python `str.replace(old, new)`: replace every non-overlapping
occurrence, scanning left to right (the scan resumes after the inserted
replacement). For the empty `old` (never used by the source) it is the
identity. -/
def replaceAll (old new : Str) (l : Str) : Str :=
  replaceAllAux old new 0 l

/-- The prefix of `l` before the first occurrence of `sep`
(Python `l.split(sep)[0]`; the whole string when `sep` does not occur). -/
def beforeFirst (sep : Str) : Str → Str
  | [] => []
  | c :: rest =>
    if startsWithL sep (c :: rest) then [] else c :: beforeFirst sep rest

/-- Python `s.endswith(t)`. -/
def endsWithL (t l : Str) : Bool :=
  startsWithL t.reverse l.reverse

/-- Embedding of `re.sub(r"\s+", "", l)`: delete every whitespace character. -/
def removeWs (l : Str) : Str :=
  l.filter (fun c => !isSpace c)

/-- Accumulator for `wordRuns`: `acc` is the current word-character run,
reversed. -/
def wordRunsAux : Option Str → Str → List Str
  | none, [] => []
  | some r, [] => [r.reverse]
  | none, c :: rest =>
    if isWordChar c then wordRunsAux (some [c]) rest else wordRunsAux none rest
  | some r, c :: rest =>
    if isWordChar c then wordRunsAux (some (c :: r)) rest
    else r.reverse :: wordRunsAux none rest

/-- Maximal runs of word characters of `l`, in order (the tokens delimited by
regex `\b` boundaries). -/
def wordRuns (l : Str) : List Str :=
  wordRunsAux none l

/-- Embedding of `len(re.findall(r"\b[a-zA-Z]+\b", l))`: the number of maximal
word-character runs made up entirely of ASCII letters. -/
def countEnglishWords (l : Str) : Nat :=
  ((wordRuns l).filter (fun r => r.all isAsciiLetter)).length

/-- Embedding of `len(re.findall(r"[a-zA-Z]", l))`. -/
def countEnglishChars (l : Str) : Nat :=
  l.countP isAsciiLetter

/-- Embedding of `len(re.findall(r"[一-鿿]", l))`. -/
def countCJK (l : Str) : Nat :=
  l.countP (fun c => 0x4e00 ≤ c.toNat && c.toNat ≤ 0x9fff)

/-- Embedding of `len(re.findall(r"[぀-ゟ゠-ヿ一-鿿]", l))`. -/
def countJapaneseChars (l : Str) : Nat :=
  l.countP (fun c =>
    (0x3040 ≤ c.toNat && c.toNat ≤ 0x309f) ||
    (0x30a0 ≤ c.toNat && c.toNat ≤ 0x30ff) ||
    (0x4e00 ≤ c.toNat && c.toNat ≤ 0x9fff))

/-- Python slice `l[-k:]` (for `k = 0` this is `l[0:]`, the whole list — the
quirk matters when `max_history_messages` is 0). -/
def pyLastSlice {α : Type} (k : Nat) (l : List α) : List α :=
  if k = 0 then l else l.drop (l.length - k)

/-- The remainder of the haystack after the first occurrence of `needle`
(`none` when `needle` does not occur). -/
def afterFirst (needle : Str) : Str → Option Str
  | [] => if needle.isEmpty then some [] else none
  | c :: rest =>
    if startsWithL needle (c :: rest) then some ((c :: rest).drop needle.length)
    else afterFirst needle rest

/-- Does `$` (outside MULTILINE mode) match before this remainder: at the end
of the string or just before a final newline? -/
def dollarOk (rest : Str) : Bool :=
  rest.isEmpty || rest == ['\n']

/-- Lazy capture for `(.+?)` under `re.DOTALL`, stopping as soon as the
remainder starts with `stop` (when `useStop` is set) or `$` matches: the
shortest non-empty prefix whose remainder satisfies the stop condition. -/
def lazyCaptureTo (stop : Str) (useStop : Bool) : Str → Str
  | [] => []
  | c :: cs =>
    c :: (if (useStop && startsWithL stop cs) || dollarOk cs then []
          else lazyCaptureTo stop useStop cs)

/-! Embedding of src/prompt_improvement_engine.py. -/

/-- Embedding of `PromptImprovementEngine.extract_original_prompt`: the two
searches `改善したいプロンプト：(.+?)(?:問題：|$)` and `問題：(.+?)$`
(both `re.DOTALL`), each group stripped; an unmatched group is the empty
string. -/
def extractOriginalPrompt (userMessage : Str) : Str × Str :=
  let promptRaw :=
    match afterFirst "改善したいプロンプト：".toList userMessage with
    | none => []
    | some rest =>
      if rest.isEmpty then [] else lazyCaptureTo "問題：".toList true rest
  let problemRaw :=
    match afterFirst "問題：".toList userMessage with
    | none => []
    | some rest =>
      if rest.isEmpty then [] else lazyCaptureTo [] false rest
  (pyStrip promptRaw, pyStrip problemRaw)

/-- Replacement text for `re.sub(r"大きな鏡", ..., prompt)` in
`improve_prompt`. -/
def mirrorRepl : Str :=
  "大きな鏡（鏡に映る人物の手足が正確で自然な姿勢）".toList

/-- The clause appended when the problem mentions the mirror but the prompt
has no `大きな鏡`. -/
def mirrorAppend : Str :=
  "、鏡に正確に映る人物の姿勢".toList

/-- The descriptive clause `improve_prompt` inserts after a `高品質` part. -/
def detailClause : Str :=
  "超詳細な描写".toList

/-- The part-collection loop of `improve_prompt`: every part is kept, and
`超詳細な描写` is inserted once after the first part containing `高品質`
(provided the whole prompt does not already contain `超詳細`). -/
def improveFold (parts : List Str) (prompt : Str) (added : Bool) : List Str :=
  match parts with
  | [] => []
  | p :: rest =>
    if containsSub "高品質".toList p && !containsSub "超詳細".toList prompt
        && !added then
      p :: detailClause :: improveFold rest prompt true
    else
      p :: improveFold rest prompt added

/-- The normalization prefix of `improve_prompt`: strip, drop trailing
separators, and resolve a mirror problem. -/
def improveBase (originalPrompt problem : Str) : Str :=
  let prompt := pyStrip originalPrompt
  let prompt := pyRstripChars ['、', ','] prompt
  if !problem.isEmpty && containsSub "鏡".toList problem then
    let p2 := replaceAll "大きな鏡".toList mirrorRepl prompt
    if containsSub "大きな鏡".toList p2 then p2 else p2 ++ mirrorAppend
  else prompt

/-- The comma-separated parts of the normalized prompt, each stripped, empty
parts dropped. -/
def improvePromptParts (prompt : Str) : List Str :=
  ((splitOnChar '、' prompt).map pyStrip).filter (· ≠ [])

/-- Embedding of `PromptImprovementEngine.improve_prompt`: strip, drop
trailing separators, resolve a mirror problem, split on `、`, re-collect the
parts with the one automatic improvement, re-join with `、` and delete all
whitespace. -/
def improvePrompt (originalPrompt problem : Str) : Str :=
  let prompt := improveBase originalPrompt problem
  removeWs (joinSep "、".toList (improveFold (improvePromptParts prompt) prompt false))

/-- Fixed message of `process_prompt_improvement_request` when no prompt can
be extracted from the user message. -/
def apologyNoPrompt : Str :=
  "申し訳ありませんが、プロンプトが確認できませんでした。".toList

/-- Bad markers of `process_prompt_improvement_request` step "その他の検証". -/
def badMarkersImprove : List Str :=
  ["注意", "備考", "ただし", "ですが", "説明", "理由", "詳細", "ます",
   "ました", "します"].map String.toList

/-- Embedding of `process_prompt_improvement_request`: extract prompt and
problem; apologize when no prompt is found; reject the backend text on
language mixing (at least 2 English words, or at least 10 CJK characters) or
explanatory content, falling back to `improvePrompt`; otherwise adopt the
backend text. -/
def processPromptImprovementRequest (userMessage llmResponse : Str) : Str :=
  let ex := extractOriginalPrompt userMessage
  let originalPrompt := ex.1
  let problem := ex.2
  if originalPrompt.isEmpty then apologyNoPrompt
  else if !llmResponse.isEmpty then
    let cleaned := pyStrip llmResponse
    if 2 ≤ countEnglishWords cleaned then improvePrompt originalPrompt problem
    else if 10 ≤ countCJK cleaned then improvePrompt originalPrompt problem
    else if 10 < cleaned.length && cleaned.length < 500
        && !badMarkersImprove.any (fun m => containsSub m cleaned) then
      cleaned
    else improvePrompt originalPrompt problem
  else improvePrompt originalPrompt problem

/-- Character class kept by `generate_prompt`:
`[ぁ-ん ァ-ヴー一-龥々〆〤ゝゞ、。・ー，、]`. -/
def isJaAllowed (c : Char) : Bool :=
  (0x3041 ≤ c.toNat && c.toNat ≤ 0x3093) || c == ' ' ||
  (0x30a1 ≤ c.toNat && c.toNat ≤ 0x30f4) || c == Char.ofNat 0x30fc ||
  (0x4e00 ≤ c.toNat && c.toNat ≤ 0x9fa5) ||
  c == Char.ofNat 0x3005 || c == Char.ofNat 0x3006 || c == Char.ofNat 0x3024 ||
  c == Char.ofNat 0x309d || c == Char.ofNat 0x309e ||
  c == Char.ofNat 0x3001 || c == Char.ofNat 0x3002 ||
  c == Char.ofNat 0x30fb || c == Char.ofNat 0xff0c

/-- Worker for `subCommaWs`; the flag records whether the scanner is inside
the whitespace run following a matched comma (those spaces are consumed by
the match and dropped). -/
def subCommaWsAux : Bool → Str → Str
  | _, [] => []
  | skipWs, c :: cs =>
    if skipWs && isSpace c then subCommaWsAux true cs
    else if c == ',' then '、' :: subCommaWsAux true cs
    else c :: subCommaWsAux false cs

/-- Embedding of `re.sub(r",\s*", "、", l)`: each ASCII comma and the
whitespace run after it become one `、`. -/
def subCommaWs (l : Str) : Str :=
  subCommaWsAux false l

/-- Embedding of `PromptImprovementEngine.generate_prompt`. -/
def generatePrompt (description : Str) : Str :=
  let prompt := pyStrip description
  if prompt.isEmpty || prompt.length < 2 then "画像生成のプロンプト".toList
  else
    let prompt := pyStrip (pyLstripChars ['。', '、'] prompt)
    if 15 < prompt.length then
      let prompt := prompt.filter isJaAllowed
      let prompt := pyRstripChars ['。', '、', ' '] (pyStrip prompt)
      if !containsSub "高品質".toList prompt
          && (containsSub "ダンス".toList prompt
              || containsSub "教室".toList prompt) then
        prompt ++ "、高品質、明るい照明".toList
      else prompt
    else
      let addDetails :=
        if containsSub "ダンス".toList description
            || containsSub "教室".toList description
            || containsSub "スタジオ".toList description then
          (if !containsSub "高品質".toList prompt then ["高品質".toList] else [])
            ++ (if !containsSub "明るい".toList prompt
                  && !containsSub "照明".toList prompt then
                  ["明るい照明".toList] else [])
        else []
      let prompt :=
        if !addDetails.isEmpty then
          prompt ++ "、".toList ++ joinSep ",".toList addDetails
        else prompt
      let prompt := prompt.filter isJaAllowed
      let prompt := rstripBy (fun c => isSpace c || c == '、') prompt
      subCommaWs prompt

/-- Consume non-newline characters lazily until `lit` matches (regex
`.*?lit` without DOTALL); returns the remainder after `lit`, or `none` when
`lit` is not reachable on this line. -/
def lazyScanTo (lit : Str) : Str → Option Str
  | [] => none
  | c :: cs =>
    if startsWithL lit (c :: cs) then some ((c :: cs).drop lit.length)
    else if c == '\n' then none
    else lazyScanTo lit cs

/-- Number of characters consumed by the lazy scan of `lazyScanTo`,
including the final `lit`; `none` when `lit` is not reachable. -/
def lazyScanLen (lit : Str) : Str → Option Nat
  | [] => none
  | c :: cs =>
    if startsWithL lit (c :: cs) then some lit.length
    else if c == '\n' then none
    else (lazyScanLen lit cs).map (· + 1)

/-- Length of a match of `head.*?tail` (no DOTALL) anchored at the start of
`l`, or `none` when there is no match here. -/
def matchSpan (head tail : Str) (l : Str) : Option Nat :=
  if startsWithL head l then
    (lazyScanLen tail (l.drop head.length)).map (head.length + ·)
  else none

/-- Worker for `subLazyPat`; the counter records characters of a matched
occurrence still to be skipped (already deleted). The skip counter keeps
the recursion structural, so that the definition reduces. -/
def subLazyPatAux (head tail : Str) : Nat → Str → Str
  | _, [] => []
  | k + 1, _ :: rest => subLazyPatAux head tail k rest
  | 0, c :: cs =>
    match matchSpan head tail (c :: cs) with
    | some (n + 1) => subLazyPatAux head tail n cs
    | some 0 => c :: subLazyPatAux head tail 0 cs
    | none => c :: subLazyPatAux head tail 0 cs

/-- Embedding of one `re.sub(pattern, "", message)` for an unanchored pattern
of shape `head.*?tail` (no DOTALL): every non-overlapping occurrence is
deleted, scanning left to right. -/
def subLazyPat (head tail : Str) (l : Str) : Str :=
  subLazyPatAux head tail 0 l

/-- Embedding of `re.sub(r"^画像生成.*?ください。?", "", message)`: anchored
at the start of the string, lazy scan on the first line, an optional `。`
consumed greedily. -/
def stripLeadingImageGen (msg : Str) : Str :=
  if startsWithL "画像生成".toList msg then
    match lazyScanTo "ください".toList (msg.drop 4) with
    | some rest =>
      if startsWithL "。".toList rest then rest.drop 1 else rest
    | none => msg
  else msg

/-- The unanchored instruction patterns of
`process_prompt_generation_request`, as (head, lazy-tail) pairs. -/
def instructionPats : List (Str × Str) :=
  [("プロンプト".toList, "返してください".toList),
   ("プロンプト".toList, "ください".toList),
   ("日本語".toList, "返してください".toList),
   ("日本語".toList, "ください".toList),
   ("１行".toList, "ください".toList),
   ("1行".toList, "ください".toList)]

/-- Fixed message of `process_prompt_generation_request` for an empty user
message. -/
def apologyNoDescription : Str :=
  "申し訳ありませんが、説明が確認できませんでした。".toList

/-- Bad markers of `process_prompt_generation_request`. -/
def badMarkersGenerate : List Str :=
  ["注意", "備考", "ただし", "ですが", "説明", "理由", "です", "ます",
   "ました"].map String.toList

/-- Apply all unanchored instruction patterns in order. -/
def applyInstructionPats (l : Str) : Str :=
  instructionPats.foldl (fun acc p => subLazyPat p.1 p.2 acc) l

/-- Embedding of `process_prompt_generation_request`. -/
def processPromptGenerationRequest (userMessage llmResponse : Str) : Str :=
  if userMessage.isEmpty then apologyNoDescription
  else
    let messageClean := stripLeadingImageGen userMessage
    let messageClean := applyInstructionPats messageClean
    let messageClean := pyLstripChars ['。', '、'] (pyStrip messageClean)
    let messageClean := messageClean.dropWhile (fun c => c == '.')
    let messageClean := pyStrip messageClean
    let messageClean := if messageClean.isEmpty then userMessage else messageClean
    if !llmResponse.isEmpty then
      let cleaned := pyStrip llmResponse
      if 2 ≤ countEnglishWords cleaned then generatePrompt messageClean
      else if 3 ≤ countEnglishChars cleaned && 0 < countJapaneseChars cleaned then
        generatePrompt messageClean
      else if 5 < countJapaneseChars cleaned && 5 < cleaned.length
          && cleaned.length < 300
          && !badMarkersGenerate.any (fun m => containsSub m cleaned) then
        cleaned
      else generatePrompt messageClean
    else generatePrompt messageClean

/-! Embedding of the pure parts of src/chat_service.py. -/

/-- The `image_prompt_improvement` entry of `TASK_PROMPTS`. -/
def improvementTaskPrompt : String :=
  "You are a professional image generation prompt editor.\n\nCRITICAL INSTRUCTIONS - MUST FOLLOW EXACTLY:\n1. The user will give you a prompt to improve\n2. Return ONLY the improved prompt text\n3. DO NOT provide explanations\n4. DO NOT provide reasons\n5. DO NOT provide headers\n6. Return ONLY the improved prompt\n7. Keep it to 1-2 sentences maximum\n8. Do not use markdown formatting\n9. Do not include bullet points\n10. Do not include any text other than the improved prompt\n\nREQUIREMENTS:\n- Use clear, concise language\n- Add visual details\n- Make it specific for image generation\n- Address any mentioned issues\n- Keep it natural and readable\n\nOUTPUT:\nThe improved prompt text only. Just the text. 1-2 sentences. Nothing else. No explanations. No additional text."

/-- The `image_prompt_generation` entry of `TASK_PROMPTS`. -/
def generationTaskPrompt : String :=
  "You are a professional image generation prompt writer.\n\nCRITICAL INSTRUCTIONS - MUST FOLLOW EXACTLY:\n1. The user will describe what image they want\n2. Create a professional image generation prompt\n3. Return ONLY the prompt text in Japanese\n4. DO NOT provide explanations\n5. DO NOT provide reasons\n6. Return ONLY the prompt\n7. Keep it to 1-2 sentences maximum\n8. Do not use markdown formatting\n9. Do not include bullet points\n10. Do not include any text other than the prompt\n\nREQUIREMENTS:\n- Use clear, concise Japanese language\n- Include specific visual details\n- Make it suitable for image generation AI\n- Be descriptive but concise\n- Include lighting, composition, style when relevant\n\nOUTPUT:\nThe image prompt text only. Japanese only. 1-2 sentences. Nothing else."

/-- The `general` entry of `TASK_PROMPTS`. -/
def generalTaskPrompt : String :=
  "You are a helpful and professional assistant.\nAnswer user questions accurately and clearly.\nIf you\x27re unsure about something, say so.\nUse the user\x27s language for responses."

/-- The `TASK_PROMPTS` dictionary. -/
def TASK_PROMPTS : List (String × String) :=
  [("image_prompt_improvement", improvementTaskPrompt),
   ("image_prompt_generation", generationTaskPrompt),
   ("general", generalTaskPrompt)]

/-- Python `TASK_PROMPTS.get(t, TASK_PROMPTS["general"])`. -/
def taskPromptsGet : String → String
  | "image_prompt_improvement" => improvementTaskPrompt
  | "image_prompt_generation" => generationTaskPrompt
  | _ => generalTaskPrompt

/-- Embedding of `_get_system_prompt_for_task` (the `model_name` parameter of
the source is unused there). -/
def getSystemPromptForTask (taskType : String) (customPrompt : Option String) :
    String :=
  match customPrompt with
  | some c => if c ≠ "" then c else taskPromptsGet taskType
  | none => taskPromptsGet taskType

/-- The Japanese generation-intent keywords of `_detect_task_type`. -/
def generationKeywords : List Str :=
  ["プロンプト作成", "プロンプト生成", "プロンプトを作", "プロンプトを生",
   "プロンプト欲しい", "プロンプトください"].map String.toList

/-- Embedding of `_detect_task_type`: ordered keyword rules on the lowercased
message (the Japanese improvement keywords are checked on the original
message, which only matters for ASCII characters). -/
def detectTaskType (message : Str) : String :=
  let ml := message.map asciiLower
  if generationKeywords.any (fun k => containsSub k ml) then
    "image_prompt_generation"
  else if containsSub "create".toList ml && containsSub "prompt".toList ml then
    "image_prompt_generation"
  else if containsSub "generate".toList ml && containsSub "prompt".toList ml then
    "image_prompt_generation"
  else if containsSub "改善したいプロンプト".toList message
      || (containsSub "改善".toList message
          && containsSub "プロンプト".toList message) then
    "image_prompt_improvement"
  else if containsSub "prompt".toList ml && containsSub "improve".toList ml then
    "image_prompt_improvement"
  else "general"

/-- The explanation markers removed by `_post_process_response`. -/
def explanationMarkers : List Str :=
  ["しかし", "ただし", "ただ", "ところで", "つまり", "注意", "注：",
   "注意：", "備考", "※", "⚠", "ご了承", "可能性", "可能", "おそらく",
   "と思われ", "と考えられ", "かもしれません", "この改善", "改善内容",
   "改善点", "理由", "映像解像", "光源", "技術的", "撮影",
   "一部で"].map String.toList

/-- The ordered English-to-Japanese replacement table of
`_post_process_response`. -/
def postReplacements : List (Str × Str) :=
  [("STUDIO", "スタジオ"), ("studio", "スタジオ"), ("studioo", "スタジオ"),
   ("スタUDIO", "スタジオ"), (" MIRROR", "鏡"), ("MIRROR", "鏡"),
   ("mirror", "鏡"), (" FLOOR", "床"), ("FLOOR", "床"), ("floor", "床"),
   ("フLOOR", "床"), (" LIGHTING", "照明"), ("LIGHTING", "照明"),
   ("lighting", "照明"), ("LIGHINING", "照明"), (" BARRE", "バー"),
   ("BARRE", "バー"), ("barre", "バー"), ("BAR", "バー"), ("bar", "バー"),
   ("PROFESSIONAL", "プロフェッショナル"),
   ("professional", "プロフェッショナル"), ("WIDE AREA", "広々とした空間"),
   ("DANCE CLASS", "ダンスクラス")].map
    (fun p => (p.1.toList, p.2.toList))

/-- Apply an ordered replacement table with `str.replace`. -/
def applyReplacements (table : List (Str × Str)) (l : Str) : Str :=
  table.foldl (fun acc p => replaceAll p.1 p.2 acc) l

/-- Embedding of `_post_process_response`: for the two image-prompt tasks,
split into sentences on `。`, drop empty and explanatory sentences, keep the
first sentence (and the second when the first is short), re-attach `。`,
apply the replacement table, and strip; otherwise just strip. -/
def postProcessResponse (response : Str) (taskType : String) : Str :=
  if taskType = "image_prompt_improvement"
      ∨ taskType = "image_prompt_generation" then
    let text := pyStrip response
    let sentences := (splitOnChar '。' text).map pyStrip
    let rs := sentences.filter
      (fun s => !s.isEmpty
        && !explanationMarkers.any (fun m => containsSub m s))
    match rs with
    | [] => pyStrip response
    | s0 :: rest =>
      let ft :=
        if !rest.isEmpty && s0.length < 50 then
          s0 ++ "。".toList ++ rest.headD []
        else if !endsWithL "。".toList s0 then s0 ++ "。".toList
        else s0
      pyStrip (applyReplacements postReplacements ft)
  else pyStrip response

/-- Fixed apology of `_generate_response` when the stripped generation is
empty. -/
def apologyNoResponse : Str :=
  "申し訳ありませんが、応答を生成できませんでした。".toList

/-- The special tokens and role markers `_generate_response` deletes from the
raw generated text, in order. -/
def specialTokenStrips : List Str :=
  ["</s>", "<|im_start|>", "<|im_end|>", "<|assistant|>", "<|user|>",
   "質問:", "回答:", "指示:", "【システムプロンプト】", "【会話履歴】",
   "【応答】", "ユーザー:", "アシスタント:"].map String.toList

/-- The next-turn delimiters at which `_generate_response` truncates, in
order; the first one present wins. -/
def nextTurnDelims : List Str :=
  ["\n<|im_start|>", "\n質問:", "\n回答:", "\n指示:", "\nユーザー:",
   "\nアシスタント:"].map String.toList

/-- Truncate at the first listed delimiter that occurs (`break` after the
first hit). -/
def truncateAtDelims : List Str → Str → Str
  | [], t => t
  | d :: ds, t =>
    if containsSub d t then pyStrip (beforeFirst d t) else truncateAtDelims ds t

/-- The post-generation processing of `_generate_response` applied to the raw
backend text: delete special tokens, strip, truncate at a next-turn
delimiter, substitute the fixed apology when empty, then
`_post_process_response`. -/
def generateResponsePost (raw : Str) (taskType : String) : Str :=
  let t := pyStrip (specialTokenStrips.foldl (fun acc s => replaceAll s [] acc) raw)
  let t := truncateAtDelims nextTurnDelims t
  let t := if t.isEmpty then apologyNoResponse else t
  postProcessResponse t taskType

/-- Embedding of `_process_task_specific_response`. -/
def processTaskSpecific (responseText : Str) (taskType : String)
    (message : Str) : Str :=
  if taskType = "image_prompt_improvement" then
    processPromptImprovementRequest message responseText
  else if taskType = "image_prompt_generation" then
    processPromptGenerationRequest message responseText
  else responseText

/-! State model: message, session, service state. -/

/-- Message role. -/
inductive Role where
  | user
  | assistant
deriving DecidableEq

/-- A chat message (the source stores the timestamp as an ISO string; here it
is the `Nat` instant of the `datetime.now()` call). -/
structure Message where
  role : Role
  content : Str
  timestamp : Nat
deriving DecidableEq

/-- A session record of the session store. -/
structure Session where
  messages : List Message
  system_prompt : String
  model_name : String
  task_type : String
  created_at : Nat
  last_access : Nat
deriving DecidableEq

/-- The mutable state of `ChatService`: configuration, the model/tokenizer
caches (entry handles are opaque, so each cache is its key list in insertion
order), and the session store as an insertion-ordered association list. -/
structure ServiceState where
  model_name : String
  max_history_messages : Nat
  session_timeout : Nat
  max_sessions : Nat
  models : List String
  tokenizers : List String
  sessions : List (String × Session)
deriving DecidableEq

/-- First-match lookup in the session store (Python dict indexing). -/
def lookupSession : List (String × Session) → String → Option Session
  | [], _ => none
  | (k, s) :: rest, sid => if k = sid then some s else lookupSession rest sid

/-- In-place update of the session stored under `sid` (Python mutates the
dict value; insertion order is unchanged). -/
def updateSession (sessions : List (String × Session)) (sid : String)
    (f : Session → Session) : List (String × Session) :=
  sessions.map (fun kv => if kv.1 = sid then (kv.1, f kv.2) else kv)

/-- Python `d[k] = v`: replace in place when the key exists, else append. -/
def dictSet : List (String × Session) → String → Session →
    List (String × Session)
  | [], k, v => [(k, v)]
  | (k', v') :: rest, k, v =>
    if k' = k then (k, v) :: rest else (k', v') :: dictSet rest k v

/-- The expiry pass of `_cleanup_old_sessions`: drop every session with
`now - last_access > session_timeout`. -/
def expireSessions (st : ServiceState) (now : Nat) :
    List (String × Session) :=
  st.sessions.filter (fun kv => !(kv.2.last_access + st.session_timeout < now))

/-- Comparison key of the capacity-eviction sort: ascending last access. -/
def sessionLe (a b : String × Session) : Bool :=
  a.2.last_access ≤ b.2.last_access

/-- Stable insertion for the eviction sort: the new element goes in front of
the first entry it compares `≤` to, so earlier entries win ties — the tie
behaviour of Python `sorted`. -/
def insertSessionLe (a : String × Session) :
    List (String × Session) → List (String × Session)
  | [] => [a]
  | b :: bs => if sessionLe a b then a :: b :: bs else b :: insertSessionLe a bs

/-- Stable sort by ascending last access, modelling
`sorted(sessions.items(), key=lambda kv: kv[1].last_access)`. -/
def sortSessions : List (String × Session) → List (String × Session)
  | [] => []
  | x :: xs => insertSessionLe x (sortSessions xs)

/-- The capacity pass of `_cleanup_old_sessions`: when over `max_sessions`,
sort by last access ascending and delete the oldest entries down to the
limit (deleting dict keys preserves the order of the remaining entries). -/
def enforceCapacity (maxSessions : Nat) (l : List (String × Session)) :
    List (String × Session) :=
  if maxSessions < l.length then
    let sorted := sortSessions l
    let removeKeys := (sorted.take (l.length - maxSessions)).map Prod.fst
    l.filter (fun kv => !removeKeys.contains kv.1)
  else l

/-- Embedding of `_cleanup_old_sessions`: expiry pass then capacity pass,
under the session lock. -/
def cleanupOldSessions (st : ServiceState) (now : Nat) : ServiceState :=
  { st with sessions := enforceCapacity st.max_sessions (expireSessions st now) }

/-- A fresh session record as built by `_get_or_create_session`. -/
def newSession (taskType : String) (systemPrompt : Option String)
    (modelName : String) (now : Nat) : Session :=
  { messages := []
    system_prompt := getSystemPromptForTask taskType systemPrompt
    model_name := modelName
    task_type := taskType
    created_at := now
    last_access := now }

/-- The known-session branch of `_get_or_create_session`: update the system
prompt and task type when a non-empty override is supplied. -/
def getOrCreateKnown (st : ServiceState) (sid0 taskType : String)
    (systemPrompt : Option String) : String × List (String × Session) :=
  match systemPrompt with
  | some sp =>
    if sp ≠ "" then
      (sid0, updateSession st.sessions sid0
        (fun s => { s with system_prompt := sp, task_type := taskType }))
    else (sid0, st.sessions)
  | none => (sid0, st.sessions)

/-- The branch structure of `_get_or_create_session` before the common
epilogue: create a fresh record when the id is absent or unknown (the fresh
uuid is the `freshId` argument), else the known-session branch. -/
def getOrCreateBase (st : ServiceState) (sessionId : Option String)
    (taskType : String) (systemPrompt : Option String) (modelName : String)
    (now : Nat) (freshId : String) : String × List (String × Session) :=
  match sessionId with
  | some sid0 =>
    if (lookupSession st.sessions sid0).isSome then
      getOrCreateKnown st sid0 taskType systemPrompt
    else
      (freshId,
       dictSet st.sessions freshId (newSession taskType systemPrompt modelName now))
  | none =>
    (freshId,
     dictSet st.sessions freshId (newSession taskType systemPrompt modelName now))

/-- Embedding of `_get_or_create_session`: the branch structure above, then
the common epilogue — always set the model name (when non-empty) and refresh
the last access time. Returns the session id and the new state. -/
def getOrCreateSession (st : ServiceState) (sessionId : Option String)
    (taskType : String) (systemPrompt : Option String) (modelName : String)
    (now : Nat) (freshId : String) : String × ServiceState :=
  let r := getOrCreateBase st sessionId taskType systemPrompt modelName now freshId
  let sessions :=
    if modelName ≠ "" then
      updateSession r.2 r.1 (fun s => { s with model_name := modelName })
    else r.2
  let sessions := updateSession sessions r.1 (fun s => { s with last_access := now })
  (r.1, { st with sessions := sessions })

/-- The history bound of `_add_user_message`: when the list exceeds
`2 * max_history_messages`, keep the Python slice `[-(2 * maxH):]`. -/
def trimHistory (maxH : Nat) (msgs : List Message) : List Message :=
  if maxH * 2 < msgs.length then pyLastSlice (maxH * 2) msgs else msgs

/-- Embedding of `_add_user_message`: append the user message, then trim. -/
def addUserMessage (st : ServiceState) (sid : String) (content : Str)
    (now : Nat) : ServiceState :=
  { st with
    sessions := updateSession st.sessions sid
      (fun s =>
        { s with
          messages := trimHistory st.max_history_messages
            (s.messages ++ [⟨Role.user, content, now⟩]) }) }

/-- Embedding of `_load_model` as reached from `_generate_response`: skip
when the model is cached; otherwise the external load either fails (an
exception, the cache untouched) or succeeds, installing model and tokenizer
together under the lock. -/
def loadModelStep (st : ServiceState) (modelName : String)
    (loadOutcome : Except String Unit) : Except String ServiceState :=
  if st.models.contains modelName then Except.ok st
  else
    match loadOutcome with
    | Except.error e => Except.error e
    | Except.ok _ =>
      Except.ok
        { st with
          models := st.models ++ [modelName]
          tokenizers := st.tokenizers ++ [modelName] }

/-- The part of `chat` executed before the external generation call: default
the model name, classify the task, clean up old sessions, get or create the
session, record its model name and task type, and append the user message. -/
structure PreludeOut where
  sid : String
  usedModel : String
  sessTask : String
  state : ServiceState
deriving DecidableEq

/-- Embedding of the session-lock phase of `chat` (everything before the
generation call). -/
def chatPrelude (st : ServiceState) (message : Str) (sessionId : Option String)
    (systemPrompt : Option String) (modelName : Option String)
    (taskType : Option String) (now : Nat) (freshId : String) : PreludeOut :=
  let modelName := modelName.getD st.model_name
  let taskType := taskType.getD (detectTaskType message)
  let st1 := cleanupOldSessions st now
  let r := getOrCreateSession st1 sessionId taskType systemPrompt modelName now freshId
  let sid := r.1
  let st2 := r.2
  let usedModel := ((lookupSession st2.sessions sid).map Session.model_name).getD modelName
  let sessTask := ((lookupSession st2.sessions sid).map Session.task_type).getD "general"
  let st3 := addUserMessage st2 sid message now
  ⟨sid, usedModel, sessTask, st3⟩

/-- The successful result dictionary of `chat`. -/
structure ChatOk where
  response : Str
  session_id : String
  model : String
  timestamp : Nat
deriving DecidableEq

/-- The generation phase of `chat`: a generation failure is caught at the
`chat` boundary (the error result, state as already mutated); a success is
post-processed and appended as the assistant message. -/
def chatGen (p : PreludeOut) (message : Str) (now : Nat) (st2 : ServiceState) :
    Except String Str → Except String ChatOk × ServiceState
  | Except.error e => (Except.error e, st2)
  | Except.ok raw =>
    let responseText := generateResponsePost raw p.sessTask
    let responseText := processTaskSpecific responseText p.sessTask message
    (Except.ok ⟨responseText, p.sid, p.usedModel, now⟩,
     { st2 with
       sessions := updateSession st2.sessions p.sid
         (fun s =>
           { s with
             messages := s.messages ++ [⟨Role.assistant, responseText, now⟩] }) })

/-- The load phase of `chat`: a load failure is caught at the `chat`
boundary (the error result, cache untouched); otherwise generation runs on
the possibly-extended cache. -/
def chatAfterLoad (p : PreludeOut) (message : Str) (now : Nat)
    (genOutcome : Except String Str) :
    Except String ServiceState → Except String ChatOk × ServiceState
  | Except.error e => (Except.error e, p.state)
  | Except.ok st2 => chatGen p message now st2 genOutcome

/-- Embedding of `chat`: the prelude under the session lock, then the
external load and generation (their outcomes are the `loadOutcome` and
`genOutcome` parameters; the rendered prompt is consumed only by the external
backend and does not influence the state), then post-processing and the
assistant append. An exception from load or generation is caught at the
`chat` boundary and returned as the error result, with the state as already
mutated. -/
def chatStep (st : ServiceState) (message : Str) (sessionId : Option String)
    (systemPrompt : Option String) (modelName : Option String)
    (taskType : Option String) (now : Nat) (freshId : String)
    (loadOutcome : Except String Unit) (genOutcome : Except String Str) :
    Except String ChatOk × ServiceState :=
  let p := chatPrelude st message sessionId systemPrompt modelName taskType now freshId
  chatAfterLoad p message now genOutcome
    (loadModelStep p.state p.usedModel loadOutcome)

/-- The successful result dictionary of `get_history`. -/
structure HistoryOk where
  session_id : String
  messages : List Message
  system_prompt : String
  created_at : Nat
deriving DecidableEq

/-- Embedding of `get_history`: unknown id is a structured error with no
state change; a known session has its last access refreshed, and a copy of
its message list is returned. -/
def getHistory (st : ServiceState) (sid : String) (now : Nat) :
    Except String HistoryOk × ServiceState :=
  match lookupSession st.sessions sid with
  | none => (Except.error "Session not found", st)
  | some s =>
    (Except.ok ⟨sid, s.messages, s.system_prompt, s.created_at⟩,
     { st with
       sessions := updateSession st.sessions sid
         (fun s => { s with last_access := now }) })

/-! Concrete service configurations and runs used by several theorems. -/

/-- A service configured with history bound `maxH`, a 100-tick timeout, room
for 5 sessions, and the default model `m` preloaded (the constructor loads
the default model when not in mock mode). -/
def baseState (maxH : Nat) : ServiceState :=
  { model_name := "m"
    max_history_messages := maxH
    session_timeout := 100
    max_sessions := 5
    models := ["m"]
    tokenizers := ["m"]
    sessions := [] }

/-- The run state with exactly one stored session `s1` on model `m`, last
accessed at time 0. -/
def singletonState (maxH : Nat) (msgs : List Message) (sys tt : String)
    (ca : Nat) : ServiceState :=
  { model_name := "m"
    max_history_messages := maxH
    session_timeout := 100
    max_sessions := 5
    models := ["m"]
    tokenizers := ["m"]
    sessions := [("s1", ⟨msgs, sys, "m", tt, ca, 0⟩)] }

/-- One successful `chat` call at time 0 addressed to session id `sid`
(which is also minted as the fresh id when unknown), with a trivial
generation outcome. -/
def chatOnce (st : ServiceState) (sid : String) : Except String ChatOk × ServiceState :=
  chatStep st "hi".toList (some sid) none none none 0 sid
    (Except.ok ()) (Except.ok "ok".toList)

/-- The state after `n` sequential successful `chat` calls, all addressed to
session `s1`, starting from `baseState maxH`. -/
def chatIter (maxH : Nat) : Nat → ServiceState
  | 0 => baseState maxH
  | n + 1 => (chatOnce (chatIter maxH n) "s1").2

/-- The message count of session `sid` (0 when absent). -/
def sessionMessageCount (st : ServiceState) (sid : String) : Nat :=
  ((lookupSession st.sessions sid).map (fun s => s.messages.length)).getD 0

/-- The task classifier as the specification words it: ordered rules, first
match wins, all keyword matching on the lowercased message — (1)
generation-intent keywords, (2) improvement-intent keyword co-occurrence in
either language, (3) default `general`. Written from the specification for
comparison with `detectTaskType`, which is written from the source. -/
def taskClassifierSpec (message : Str) : String :=
  let ml := message.map asciiLower
  if generationKeywords.any (fun k => containsSub k ml)
      || (containsSub "create".toList ml && containsSub "prompt".toList ml)
      || (containsSub "generate".toList ml && containsSub "prompt".toList ml) then
    "image_prompt_generation"
  else if (containsSub "改善".toList ml && containsSub "プロンプト".toList ml)
      || (containsSub "improve".toList ml && containsSub "prompt".toList ml) then
    "image_prompt_improvement"
  else "general"

/-- The full output pipeline for an `image_prompt_improvement` task as run by
`chat`: the raw backend text goes through `_generate_response` post-processing
and then through the Output Quality Controller. -/
def finalizeImprovement (raw userMessage : Str) : Str :=
  processPromptImprovementRequest userMessage
    (generateResponsePost raw "image_prompt_improvement")

/-- A two-session state over capacity 1, reached by two `chat` calls with
fresh ids on a `max_sessions = 1` service. -/
def twoSessState : ServiceState :=
  (chatOnce (chatOnce { baseState 3 with max_sessions := 1 } "s1").2 "s2").2

/-! Elementary lemmas about the string utilities. -/

/-- Reflection of `startsWithL` into an append decomposition. -/
theorem startsWithL_iff (n : Str) : ∀ l, startsWithL n l = true ↔ ∃ t, l = n ++ t := by
  induction n with
  | nil =>
    intro l
    simp [startsWithL]
  | cons a as ih =>
    intro l
    cases l with
    | nil =>
      simp [startsWithL]
    | cons b bs =>
      simp only [startsWithL, Bool.and_eq_true, beq_iff_eq, ih bs]
      constructor
      · rintro ⟨rfl, t, rfl⟩
        exact ⟨t, rfl⟩
      · rintro ⟨t, h⟩
        cases h
        exact ⟨rfl, t, rfl⟩

/-- Reflection of `containsSub` into a two-sided append decomposition. -/
theorem containsSub_iff (n : Str) : ∀ l, containsSub n l = true ↔ ∃ s t, l = s ++ n ++ t := by
  intro l
  induction l with
  | nil =>
    constructor
    · intro h
      simp only [containsSub, List.isEmpty_iff] at h
      exact ⟨[], [], by simp [h]⟩
    · rintro ⟨s, t, h⟩
      have hs : s = [] ∧ n ++ t = [] := by
        constructor
        · cases s with
          | nil => rfl
          | cons a as => simp at h
        · cases s with
          | nil => simpa using h.symm
          | cons a as => simp at h
      have hn : n = [] := by
        rcases hs.2.symm with h2
        cases n with
        | nil => rfl
        | cons a as => simp at h2
      simp [containsSub, hn]
  | cons b bs ih =>
    simp only [containsSub, Bool.or_eq_true, startsWithL_iff, ih]
    constructor
    · rintro (⟨t, h⟩ | ⟨s, t, h⟩)
      · exact ⟨[], t, by simp [h]⟩
      · exact ⟨b :: s, t, by simp [h]⟩
    · rintro ⟨s, t, h⟩
      cases s with
      | nil =>
        left
        exact ⟨t, by simpa using h⟩
      | cons a as =>
        right
        simp only [List.cons_append, List.cons.injEq] at h
        exact ⟨as, t, h.2⟩

/-- Substring containment is transitive. -/
theorem containsSub_trans {a b c : Str} (h1 : containsSub a b = true)
    (h2 : containsSub b c = true) : containsSub a c = true := by
  rw [containsSub_iff] at h1 h2 ⊢
  obtain ⟨s1, t1, rfl⟩ := h1
  obtain ⟨s2, t2, rfl⟩ := h2
  exact ⟨s2 ++ s1, t1 ++ t2, by simp⟩

/-- Members of `dropWhile` come from the original list. -/
theorem mem_of_dropWhile {p : Char → Bool} {l : Str} {c : Char}
    (h : c ∈ l.dropWhile p) : c ∈ l :=
  (List.dropWhile_sublist p).subset h

/-- Members of `rstripBy` come from the original list. -/
theorem mem_of_rstripBy {p : Char → Bool} {l : Str} {c : Char}
    (h : c ∈ rstripBy p l) : c ∈ l := by
  unfold rstripBy at h
  rw [List.mem_reverse] at h
  exact List.mem_reverse.mp (mem_of_dropWhile h)

/-- Members of `pyStrip` come from the original list. -/
theorem mem_of_pyStrip {l : Str} {c : Char} (h : c ∈ pyStrip l) : c ∈ l :=
  mem_of_dropWhile (mem_of_rstripBy h)

/-- A non-`p` member survives `dropWhile p`. -/
theorem mem_dropWhile_of_not {p : Char → Bool} {c : Char} (hc : p c = false) :
    ∀ {l : Str}, c ∈ l → c ∈ l.dropWhile p := by
  intro l
  induction l with
  | nil => intro h; cases h
  | cons b bs ih =>
    intro h
    by_cases hb : p b = true
    · simp only [List.dropWhile_cons, hb, if_true]
      rcases List.mem_cons.mp h with rfl | hmem
      · rw [hc] at hb; cases hb
      · exact ih hmem
    · simp only [List.dropWhile_cons, hb, if_false]
      exact h

/-- A non-`p` member survives `rstripBy p`. -/
theorem mem_rstripBy_of_not {p : Char → Bool} {c : Char} (hc : p c = false)
    {l : Str} (h : c ∈ l) : c ∈ rstripBy p l := by
  unfold rstripBy
  rw [List.mem_reverse]
  exact mem_dropWhile_of_not hc (List.mem_reverse.mpr h)

/-- A non-whitespace member survives `pyStrip`. -/
theorem mem_pyStrip_of {c : Char} (hc : isSpace c = false) {l : Str}
    (h : c ∈ l) : c ∈ pyStrip l :=
  mem_rstripBy_of_not hc (mem_dropWhile_of_not hc h)

/-- The head of a non-empty `dropWhile p` does not satisfy `p`. -/
theorem dropWhile_head_not {p : Char → Bool} (l : Str) :
    ∀ {c t}, l.dropWhile p = c :: t → p c = false := by
  induction l with
  | nil => intro c t h; simp [List.dropWhile] at h
  | cons b bs ih =>
    intro c t h
    by_cases hb : p b = true
    · simp only [List.dropWhile_cons, hb, if_true] at h
      exact ih h
    · simp only [List.dropWhile_cons, hb, if_false] at h
      cases h
      exact Bool.eq_false_iff.mpr hb

/-- A technical variant: the whole tail may be an append. -/
theorem dropWhile_head_not_append {p : Char → Bool} {l : Str} {c : Char}
    {t u : Str} (h : l.dropWhile p = (c :: t) ++ u) : p c = false :=
  dropWhile_head_not l (by simpa using h)

/-- `rstripBy` is a prefix of its argument. -/
theorem rstripBy_append (p : Char → Bool) (l : Str) :
    ∃ t, l = rstripBy p l ++ t := by
  obtain ⟨t, ht⟩ := @List.dropWhile_suffix Char l.reverse p
  refine ⟨t.reverse, ?_⟩
  have : l.reverse.reverse = (t ++ List.dropWhile p l.reverse).reverse := by
    rw [ht]
  simpa [rstripBy] using this

/-- The head of a non-empty `pyStrip` is not whitespace. -/
theorem pyStrip_head_not_space {l : Str} {c : Char} {t : Str}
    (h : pyStrip l = c :: t) : isSpace c = false := by
  obtain ⟨u, hu⟩ := rstripBy_append isSpace (l.dropWhile isSpace)
  unfold pyStrip at h
  rw [h] at hu
  exact dropWhile_head_not_append hu

/-- `splitOnChar` never returns the empty list of pieces. -/
theorem splitOnChar_ne_nil (sep : Char) : ∀ l, splitOnChar sep l ≠ [] := by
  intro l
  induction l with
  | nil => simp [splitOnChar]
  | cons c rest ih =>
    by_cases hc : (c == sep) = true
    · simp [splitOnChar, hc]
    · simp only [splitOnChar, hc, Bool.false_eq_true, if_false]
      cases hsp : splitOnChar sep rest with
      | nil => exact absurd hsp ih
      | cons s ss => simp

/-- The separator never occurs inside a piece of `splitOnChar`. -/
theorem splitOnChar_not_mem (sep : Char) :
    ∀ l x, x ∈ splitOnChar sep l → sep ∉ x := by
  intro l
  induction l with
  | nil =>
    intro x hx
    simp only [splitOnChar, List.mem_singleton] at hx
    simp [hx]
  | cons c rest ih =>
    intro x hx
    by_cases hc : (c == sep) = true
    · simp only [splitOnChar, hc, if_true, List.mem_cons] at hx
      rcases hx with rfl | hx
      · simp
      · exact ih x hx
    · simp only [splitOnChar, hc, Bool.false_eq_true, if_false] at hx
      cases hsp : splitOnChar sep rest with
      | nil => exact absurd hsp (splitOnChar_ne_nil sep rest)
      | cons s ss =>
        rw [hsp] at hx
        rcases List.mem_cons.mp hx with rfl | hx
        · intro hmem
          rcases List.mem_cons.mp hmem with rfl | hmem
          · exact hc (beq_self_eq_true _)
          · exact ih s (by rw [hsp]; exact List.mem_cons_self s ss) hmem
        · exact ih x (by rw [hsp]; exact List.mem_cons_of_mem s hx)

/-- A non-separator member of the string occurs in some piece of
`splitOnChar`. -/
theorem splitOnChar_exists_mem (sep : Char) {c : Char} (hc : c ≠ sep) :
    ∀ l, c ∈ l → ∃ x ∈ splitOnChar sep l, c ∈ x := by
  intro l
  induction l with
  | nil => intro h; cases h
  | cons b rest ih =>
    intro h
    by_cases hb : (b == sep) = true
    · have hbsep : b = sep := beq_iff_eq.mp hb
      have hmem : c ∈ rest := by
        rcases List.mem_cons.mp h with rfl | hmem
        · exact absurd hbsep hc
        · exact hmem
      obtain ⟨x, hx, hcx⟩ := ih hmem
      exact ⟨x, by simp only [splitOnChar, hb, if_true]; exact List.mem_cons_of_mem _ hx, hcx⟩
    · simp only [splitOnChar, hb, Bool.false_eq_true, if_false]
      cases hsp : splitOnChar sep rest with
      | nil => exact absurd hsp (splitOnChar_ne_nil sep rest)
      | cons s ss =>
        rcases List.mem_cons.mp h with rfl | hmem
        · exact ⟨c :: s, List.mem_cons_self _ _, List.mem_cons_self _ _⟩
        · obtain ⟨x, hx, hcx⟩ := ih hmem
          rw [hsp] at hx
          rcases List.mem_cons.mp hx with rfl | hx
          · exact ⟨b :: x, List.mem_cons_self _ _, List.mem_cons_of_mem _ hcx⟩
          · exact ⟨x, List.mem_cons_of_mem _ hx, hcx⟩

/-- Members of a piece list occur in their `joinSep` join. -/
theorem joinSep_mem_of (sep : Str) :
    ∀ (L : List Str) (x : Str), x ∈ L → ∀ {c}, c ∈ x → c ∈ joinSep sep L := by
  intro L
  induction L with
  | nil => intro x hx; cases hx
  | cons a rest ih =>
    intro x hx c hc
    cases rest with
    | nil =>
      rcases List.mem_cons.mp hx with rfl | hx
      · simpa [joinSep] using hc
      · cases hx
    | cons b t =>
      rcases List.mem_cons.mp hx with rfl | hx
      · simp only [joinSep, List.append_assoc, List.mem_append]
        exact Or.inl hc
      · simp only [joinSep, List.append_assoc, List.mem_append]
        exact Or.inr (Or.inr (ih x hx hc))

/-- A positive skip counter makes `replaceAllAux` drop that many characters
before resuming the scan. -/
theorem replaceAllAux_skip (old new : Str) :
    ∀ (k : Nat) (l : Str),
      replaceAllAux old new k l = replaceAllAux old new 0 (l.drop k) := by
  intro k
  induction k with
  | zero => intro l; rfl
  | succ k ih =>
    intro l
    cases l with
    | nil => rfl
    | cons c cs =>
      show replaceAllAux old new k cs = _
      rw [ih]
      rfl

/-- Recursion equation of `replaceAll` on a cons cell, in the shape of the
left-to-right scan of Python `str.replace`. -/
theorem replaceAll_cons (old new : Str) (c : Char) (rest : Str) :
    replaceAll old new (c :: rest) =
      if old ≠ [] ∧ startsWithL old (c :: rest) = true then
        new ++ replaceAll old new (rest.drop (old.length - 1))
      else
        c :: replaceAll old new rest := by
  show (if old ≠ [] ∧ startsWithL old (c :: rest) = true then
      new ++ replaceAllAux old new (old.length - 1) rest
    else
      c :: replaceAllAux old new 0 rest) = _
  rw [replaceAllAux_skip old new (old.length - 1) rest]
  rfl

/-- A member of the input survives `replaceAll old new` provided every
character of `old` also occurs in `new`. -/
theorem replaceAll_mem {old new : Str} (hsub : ∀ x ∈ old, x ∈ new) {c : Char} :
    ∀ {l : Str}, c ∈ l → c ∈ replaceAll old new l := by
  suffices H : ∀ (n : Nat) (l : Str), l.length = n → c ∈ l →
      c ∈ replaceAll old new l by
    intro l hc
    exact H l.length l rfl hc
  intro n
  induction n using Nat.strong_induction_on with
  | _ n ih =>
    intro l hn hc
    cases l with
    | nil => cases hc
    | cons b rest =>
      rw [replaceAll_cons]
      by_cases hcond : old ≠ [] ∧ startsWithL old (b :: rest) = true
      · rw [if_pos hcond]
        obtain ⟨hne, hpre⟩ := hcond
        obtain ⟨t, ht⟩ := (startsWithL_iff old (b :: rest)).mp hpre
        have hdrop : rest.drop (old.length - 1) = t := by
          have h1 : (b :: rest).drop old.length = t := by
            rw [ht]
            simp
          cases old with
          | nil => exact absurd rfl hne
          | cons o os =>
            simpa using h1
        rw [List.mem_append]
        rw [ht] at hc
        rcases List.mem_append.mp hc with hin | hin
        · exact Or.inl (hsub c hin)
        · have hlt : (rest.drop (old.length - 1)).length < n := by
            rw [← hn]
            simp only [List.length_drop, List.length_cons]
            omega
          exact Or.inr (ih _ hlt _ rfl (hdrop ▸ hin))
      · rw [if_neg hcond]
        rcases List.mem_cons.mp hc with rfl | hmem
        · exact List.mem_cons_self _ _
        · have hlt : rest.length < n := by
            rw [← hn]
            simp
          exact List.mem_cons_of_mem _ (ih _ hlt _ rfl hmem)

/-- Every piece given to `improveFold` appears in its output. -/
theorem improveFold_mem_of_mem {x : Str} :
    ∀ (parts : List Str) (prompt : Str) (b : Bool), x ∈ parts →
      x ∈ improveFold parts prompt b := by
  intro parts
  induction parts with
  | nil => intro _ _ h; cases h
  | cons p rest ih =>
    intro prompt b h
    rcases List.mem_cons.mp h with rfl | hmem
    · unfold improveFold
      split <;> exact List.mem_cons_self _ _
    · unfold improveFold
      split
      · exact List.mem_cons_of_mem _ (List.mem_cons_of_mem _ (ih prompt true hmem))
      · exact List.mem_cons_of_mem _ (ih prompt b hmem)

/-- Every member of the output of `improveFold` is a given piece or the fixed
detail clause. -/
theorem improveFold_mem (x : Str) :
    ∀ (parts : List Str) (prompt : Str) (b : Bool),
      x ∈ improveFold parts prompt b → x ∈ parts ∨ x = detailClause := by
  intro parts
  induction parts with
  | nil => intro _ _ h; unfold improveFold at h; cases h
  | cons p rest ih =>
    intro prompt b h
    unfold improveFold at h
    split at h
    · rcases List.mem_cons.mp h with rfl | h2
      · exact Or.inl (List.mem_cons_self _ _)
      · rcases List.mem_cons.mp h2 with rfl | h3
        · exact Or.inr rfl
        · rcases ih prompt true h3 with hin | he
          · exact Or.inl (List.mem_cons_of_mem _ hin)
          · exact Or.inr he
    · rcases List.mem_cons.mp h with rfl | h2
      · exact Or.inl (List.mem_cons_self _ _)
      · rcases ih prompt b h2 with hin | he
        · exact Or.inl (List.mem_cons_of_mem _ hin)
        · exact Or.inr he

/-- A non-whitespace member survives `removeWs`. -/
theorem mem_removeWs_of {c : Char} (hc : isSpace c = false) {l : Str}
    (h : c ∈ l) : c ∈ removeWs l := by
  unfold removeWs
  rw [List.mem_filter]
  exact ⟨h, by simp [hc]⟩

/-- Members of `removeWs` come from the original list. -/
theorem mem_of_removeWs {c : Char} {l : Str} (h : c ∈ removeWs l) : c ∈ l :=
  (List.mem_filter.mp h).1

/-- `removeWs` distributes over append. -/
theorem removeWs_append (a b : Str) :
    removeWs (a ++ b) = removeWs a ++ removeWs b := by
  simp [removeWs, List.filter_append]

/-- The string literal `、` is the singleton separator list. -/
theorem sepString_eq : "、".toList = ['、'] := rfl

/-- The string literal `、、` is the doubled separator list. -/
theorem ddString_eq : "、、".toList = ['、', '、'] := rfl

/-- `removeWs` commutes with joining on the (non-whitespace) separator `、`. -/
theorem removeWs_joinSep (L : List Str) :
    removeWs (joinSep ['、'] L) = joinSep ['、'] (L.map removeWs) := by
  induction L with
  | nil => simp [joinSep, removeWs]
  | cons a rest ih =>
    cases rest with
    | nil => simp [joinSep]
    | cons b t =>
      show removeWs (a ++ ['、'] ++ joinSep ['、'] (b :: t)) =
        removeWs a ++ ['、'] ++ joinSep ['、'] ((b :: t).map removeWs)
      rw [removeWs_append, removeWs_append, ih]
      have hsep : removeWs ['、'] = ['、'] := by decide
      rw [hsep]

/-- A non-empty piece headed by a non-separator character never starts the
joined string with the separator. -/
theorem joinSep_cons_head (sep : Str) (b0 : Char) (bs : Str) (t : List Str) :
    ∃ z, joinSep sep ((b0 :: bs) :: t) = b0 :: z := by
  cases t with
  | nil => exact ⟨bs, rfl⟩
  | cons u v => exact ⟨bs ++ sep ++ joinSep sep (u :: v), rfl⟩

/-- Substring search for the doubled separator skips over a separator-free
leading block. -/
theorem containsSub_dd_append {a : Str} (ha : '、' ∉ a) (r : Str) :
    containsSub ['、', '、'] (a ++ r) = containsSub ['、', '、'] r := by
  induction a with
  | nil => simp
  | cons c as ih =>
    have hc : ('、' == c) = false := by
      have : c ≠ '、' := fun h => ha (h ▸ List.mem_cons_self c as)
      simp [beq_iff_eq]
      exact fun h => this h.symm
    have hrec := ih (fun h => ha (List.mem_cons_of_mem c h))
    show (startsWithL ['、', '、'] (c :: (as ++ r))
      || containsSub ['、', '、'] (as ++ r)) = containsSub ['、', '、'] r
    rw [hrec]
    show (('、' == c) && startsWithL ['、'] (as ++ r)
      || containsSub ['、', '、'] r) = containsSub ['、', '、'] r
    rw [hc]
    simp

/-- Joining non-empty separator-free pieces never produces two adjacent
separators. -/
theorem joinSep_no_dd :
    ∀ (L : List Str), (∀ x ∈ L, x ≠ [] ∧ '、' ∉ x) →
      containsSub ['、', '、'] (joinSep ['、'] L) = false := by
  intro L
  induction L with
  | nil => intro _; decide
  | cons a rest ih =>
    intro hL
    obtain ⟨hane, hano⟩ := hL a (List.mem_cons_self _ _)
    cases rest with
    | nil =>
      show containsSub ['、', '、'] a = false
      have h := containsSub_dd_append hano ([] : Str)
      simp only [List.append_nil] at h
      rw [h]
      decide
    | cons b t =>
      obtain ⟨hbne, hbno⟩ := hL b (List.mem_cons_of_mem _ (List.mem_cons_self _ _))
      show containsSub ['、', '、'] (a ++ ['、'] ++ joinSep ['、'] (b :: t)) = false
      rw [List.append_assoc, containsSub_dd_append hano]
      have hrest : containsSub ['、', '、'] (joinSep ['、'] (b :: t)) = false :=
        ih (fun x hx => hL x (List.mem_cons_of_mem _ hx))
      show (startsWithL ['、', '、'] ('、' :: joinSep ['、'] (b :: t))
        || containsSub ['、', '、'] (joinSep ['、'] (b :: t))) = false
      rw [hrest]
      cases b with
      | nil => exact absurd rfl hbne
      | cons b0 bs =>
        have hb0 : ('、' == b0) = false := by
          have : b0 ≠ '、' := fun h => hbno (h ▸ List.mem_cons_self b0 bs)
          simp [beq_iff_eq]
          exact fun h => this h.symm
        obtain ⟨z, hz⟩ := joinSep_cons_head ['、'] b0 bs t
        rw [hz]
        show (('、' == '、') && (('、' == b0) && startsWithL [] z)
          || false) = false
        rw [hb0]
        simp

/-- Every piece produced by `improvePromptParts` is non-empty, free of the
separator, and headed by a non-whitespace character. -/
theorem improvePromptParts_good (prompt : Str) :
    ∀ x ∈ improvePromptParts prompt,
      x ≠ [] ∧ '、' ∉ x ∧ removeWs x ≠ [] := by
  intro x hx
  unfold improvePromptParts at hx
  rw [List.mem_filter] at hx
  obtain ⟨hmap, hne⟩ := hx
  rw [decide_eq_true_eq] at hne
  obtain ⟨seg, hseg, hxeq⟩ := List.mem_map.mp hmap
  refine ⟨hne, ?_, ?_⟩
  · intro hmem
    exact splitOnChar_not_mem '、' prompt seg hseg
      (mem_of_pyStrip (hxeq ▸ hmem))
  · cases hx2 : x with
    | nil => exact absurd hx2 hne
    | cons c t =>
      have hcs : isSpace c = false := by
        apply @pyStrip_head_not_space seg
        rw [hxeq, hx2]
      have hcmem : c ∈ removeWs (c :: t) :=
        mem_removeWs_of hcs (List.mem_cons_self _ _)
      exact List.ne_nil_of_mem hcmem

/-- The output of `improve_prompt` never contains two adjacent separators:
the fold pieces are non-empty and separator-free, so the join cannot create
`、、`, and whitespace removal cannot merge two separators. -/
theorem improvePrompt_no_dd (originalPrompt problem : Str) :
    containsSub "、、".toList (improvePrompt originalPrompt problem) = false := by
  rw [ddString_eq]
  unfold improvePrompt
  rw [sepString_eq, removeWs_joinSep]
  apply joinSep_no_dd
  intro y hy
  obtain ⟨x, hx, hyeq⟩ := List.mem_map.mp hy
  rcases improveFold_mem x _ _ _ hx with hin | hdetail
  · obtain ⟨hne, hnosep, hrm⟩ := improvePromptParts_good _ x hin
    refine ⟨hyeq ▸ hrm, ?_⟩
    intro hmem
    exact hnosep (mem_of_removeWs (hyeq ▸ hmem))
  · rw [← hyeq, hdetail]
    decide

/-- A character that is neither a separator nor whitespace survives the
normalization prefix of `improve_prompt`. -/
theorem improveBase_mem {c : Char} (h1 : c ≠ '、') (h2 : c ≠ ',')
    (h3 : isSpace c = false) {originalPrompt : Str} (problem : Str)
    (hc : c ∈ originalPrompt) : c ∈ improveBase originalPrompt problem := by
  have hstep1 : c ∈ pyStrip originalPrompt := mem_pyStrip_of h3 hc
  have hcontains : (['、', ','].contains c) = false := by
    simp only [List.contains_cons, List.contains_nil, Bool.or_false,
      Bool.or_eq_false_iff, beq_eq_false_iff_ne]
    exact ⟨h1, h2⟩
  have hstep2 : c ∈ pyRstripChars ['、', ','] (pyStrip originalPrompt) := by
    unfold pyRstripChars
    exact mem_rstripBy_of_not hcontains hstep1
  unfold improveBase
  simp only []
  split
  · have hsub : ∀ x ∈ "大きな鏡".toList, x ∈ mirrorRepl := by decide
    have hrep : c ∈ replaceAll "大きな鏡".toList mirrorRepl
        (pyRstripChars ['、', ','] (pyStrip originalPrompt)) :=
      replaceAll_mem hsub hstep2
    split
    · exact hrep
    · exact List.mem_append_left _ hrep
  · exact hstep2

/-- When the original prompt contains a character other than separators and
whitespace, `improve_prompt` returns a non-empty string. -/
theorem improvePrompt_ne_nil {originalPrompt : Str} (problem : Str)
    (h : ∃ c ∈ originalPrompt, c ≠ '、' ∧ c ≠ ',' ∧ isSpace c = false) :
    improvePrompt originalPrompt problem ≠ [] := by
  obtain ⟨c, hc, h1, h2, h3⟩ := h
  have hbase : c ∈ improveBase originalPrompt problem :=
    improveBase_mem h1 h2 h3 problem hc
  obtain ⟨seg, hseg, hcseg⟩ := splitOnChar_exists_mem '、' h1 _ hbase
  have hpart : pyStrip seg ∈ improvePromptParts (improveBase originalPrompt problem) := by
    unfold improvePromptParts
    rw [List.mem_filter]
    refine ⟨List.mem_map_of_mem pyStrip hseg, ?_⟩
    rw [decide_eq_true_eq]
    exact List.ne_nil_of_mem (mem_pyStrip_of h3 hcseg)
  have hfold : pyStrip seg ∈ improveFold
      (improvePromptParts (improveBase originalPrompt problem))
      (improveBase originalPrompt problem) false :=
    improveFold_mem_of_mem _ _ _ hpart
  have hjoin : c ∈ joinSep "、".toList
      (improveFold (improvePromptParts (improveBase originalPrompt problem))
        (improveBase originalPrompt problem) false) :=
    joinSep_mem_of _ _ _ hfold (mem_pyStrip_of h3 hcseg)
  unfold improvePrompt
  exact List.ne_nil_of_mem (mem_removeWs_of h3 hjoin)

/-- When the extracted prompt contains a character other than separators and
whitespace, the improvement controller returns a non-empty string on every
path. -/
theorem processImprove_ne_nil (userMessage llmResponse : Str)
    (h : ∃ c ∈ (extractOriginalPrompt userMessage).1,
      c ≠ '、' ∧ c ≠ ',' ∧ isSpace c = false) :
    processPromptImprovementRequest userMessage llmResponse ≠ [] := by
  obtain ⟨c, hc, h1, h2, h3⟩ := h
  have hne : (extractOriginalPrompt userMessage).1 ≠ [] := List.ne_nil_of_mem hc
  have hempty : ((extractOriginalPrompt userMessage).1.isEmpty = true) → False :=
    fun hh => hne (List.isEmpty_iff.mp hh)
  unfold processPromptImprovementRequest
  simp only []
  rw [if_neg hempty]
  have himp : improvePrompt (extractOriginalPrompt userMessage).1
      (extractOriginalPrompt userMessage).2 ≠ [] :=
    improvePrompt_ne_nil _ ⟨c, hc, h1, h2, h3⟩
  split
  · split
    · exact himp
    · split
      · exact himp
      · split
        · rename_i hlen
          rw [Bool.and_eq_true, Bool.and_eq_true] at hlen
          have h10 : 10 < (pyStrip llmResponse).length :=
            of_decide_eq_true hlen.1.1
          intro hnil
          rw [hnil] at h10
          simp at h10
        · exact himp
  · exact himp

/-- When the text reaching the improvement controller still contains at least
two English words, the result is exactly the rule-based result computed with
no backend text at all. -/
theorem processImprove_fallback_of_english (userMessage llmResponse : Str)
    (h : 2 ≤ countEnglishWords (pyStrip llmResponse)) :
    processPromptImprovementRequest userMessage llmResponse =
      processPromptImprovementRequest userMessage [] := by
  have hne : llmResponse ≠ [] := by
    intro he
    rw [he] at h
    have : countEnglishWords (pyStrip []) = 0 := by decide
    omega
  have hnemp : llmResponse.isEmpty = false := by
    cases hl : llmResponse with
    | nil => exact absurd hl hne
    | cons a b => simp
  unfold processPromptImprovementRequest
  simp only []
  by_cases hemp : (extractOriginalPrompt userMessage).1.isEmpty = true
  · rw [if_pos hemp, if_pos hemp]
  · rw [if_neg hemp, if_neg hemp]
    have hcond : ((!llmResponse.isEmpty) = true) := by simp [hnemp]
    rw [if_pos hcond, if_pos h]
    have hcond2 : ¬(((! ([] : Str).isEmpty)) = true) := by simp
    rw [if_neg hcond2]

/-- Resolving `Char.ofNat` for valid code points. -/
theorem char_toNat_ofNat {n : Nat} (h : Nat.isValidChar n) :
    (Char.ofNat n).toNat = n := by
  unfold Char.ofNat
  rw [dif_pos h]
  unfold Char.ofNatAux Char.toNat
  simp [UInt32.toNat, BitVec.toNat_ofNatLt]

/-- `asciiLower` fixes characters outside the uppercase ASCII range. -/
theorem asciiLower_fix {c : Char} (hc : ¬(65 ≤ c.toNat ∧ c.toNat ≤ 90)) :
    asciiLower c = c := by
  unfold asciiLower
  rw [if_neg]
  intro h
  rw [Bool.and_eq_true, decide_eq_true_eq, decide_eq_true_eq] at h
  exact hc h

/-- For a target character above the ASCII range, `asciiLower` changes
nothing about equality with it. -/
theorem asciiLower_eq_high {c : Char} (hc : 122 < c.toNat) (x : Char) :
    (asciiLower x = c) ↔ (x = c) := by
  unfold asciiLower
  by_cases hx : (decide (65 ≤ x.toNat) && decide (x.toNat ≤ 90)) = true
  · rw [if_pos hx]
    rw [Bool.and_eq_true, decide_eq_true_eq, decide_eq_true_eq] at hx
    have hvalid : Nat.isValidChar (x.toNat + 32) := Or.inl (by omega)
    constructor
    · intro h
      have := congrArg Char.toNat h
      rw [char_toNat_ofNat hvalid] at this
      omega
    · intro h
      have : x.toNat = c.toNat := congrArg Char.toNat h
      omega
  · rw [if_neg hx]

/-- Character equality testing against a high character is transparent to
`asciiLower`. -/
theorem beq_asciiLower_high {a : Char} (ha : 122 < a.toNat) (b : Char) :
    (a == asciiLower b) = (a == b) := by
  cases hb : (a == b) with
  | true =>
    have : a = b := beq_iff_eq.mp hb
    subst this
    rw [asciiLower_fix (by omega)]
    exact beq_self_eq_true a
  | false =>
    have hne : a ≠ b := by
      intro h
      rw [h] at hb
      rw [beq_self_eq_true] at hb
      cases hb
    rw [beq_eq_false_iff_ne]
    intro h
    exact hne (((asciiLower_eq_high ha b).mp h.symm).symm)

/-- Prefix testing for a needle of high characters is transparent to
lowercasing the haystack. -/
theorem startsWithL_map_lower {n : Str} (hn : ∀ c ∈ n, 122 < c.toNat) :
    ∀ l : Str, startsWithL n (l.map asciiLower) = startsWithL n l := by
  induction n with
  | nil => intro l; cases l <;> rfl
  | cons a as ih =>
    intro l
    cases l with
    | nil => rfl
    | cons b bs =>
      show (a == asciiLower b && startsWithL as (bs.map asciiLower))
        = (a == b && startsWithL as bs)
      rw [beq_asciiLower_high (hn a (List.mem_cons_self _ _)) b,
        ih (fun c hc => hn c (List.mem_cons_of_mem _ hc)) bs]

/-- Substring testing for a needle of high characters is transparent to
lowercasing the haystack. -/
theorem containsSub_map_lower {n : Str} (hn : ∀ c ∈ n, 122 < c.toNat) :
    ∀ l : Str, containsSub n (l.map asciiLower) = containsSub n l := by
  intro l
  induction l with
  | nil => rfl
  | cons b bs ih =>
    show (startsWithL n ((b :: bs).map asciiLower)
      || containsSub n (bs.map asciiLower)) = _
    rw [startsWithL_map_lower hn, ih]
    rfl

/-- `asciiLower` is idempotent. -/
theorem asciiLower_idem (x : Char) : asciiLower (asciiLower x) = asciiLower x := by
  by_cases hx : (65 ≤ x.toNat ∧ x.toNat ≤ 90)
  · have hstep : asciiLower x = Char.ofNat (x.toNat + 32) := by
      unfold asciiLower
      rw [if_pos]
      rw [Bool.and_eq_true, decide_eq_true_eq, decide_eq_true_eq]
      exact hx
    have hvalid : Nat.isValidChar (x.toNat + 32) := Or.inl (by omega)
    rw [hstep]
    apply asciiLower_fix
    rw [char_toNat_ofNat hvalid]
    omega
  · rw [asciiLower_fix hx, asciiLower_fix hx]

/-- Lowercasing a message is idempotent. -/
theorem map_asciiLower_idem (l : Str) :
    (l.map asciiLower).map asciiLower = l.map asciiLower := by
  rw [List.map_map]
  exact List.map_congr_left (fun x _ => asciiLower_idem x)

/-- The source classifier agrees with the specification classifier on every
message. -/
theorem detect_eq_spec (m : Str) : detectTaskType m = taskClassifierSpec m := by
  have hKaizen := @containsSub_map_lower "改善".toList (by decide) m
  have hPuro := @containsSub_map_lower "プロンプト".toList (by decide) m
  have habs1 : containsSub "改善したいプロンプト".toList m = true →
      containsSub "改善".toList m = true :=
    fun h => containsSub_trans (by decide) h
  have habs2 : containsSub "改善したいプロンプト".toList m = true →
      containsSub "プロンプト".toList m = true :=
    fun h => containsSub_trans (by decide) h
  unfold detectTaskType taskClassifierSpec
  simp only [hKaizen, hPuro]
  generalize hA1 : (generationKeywords.any fun k =>
    containsSub k (m.map asciiLower)) = a1
  generalize hA2 : containsSub "create".toList (m.map asciiLower) = a2
  generalize hA3 : containsSub "prompt".toList (m.map asciiLower) = a3
  generalize hA4 : containsSub "generate".toList (m.map asciiLower) = a4
  generalize hA5 : containsSub "改善したいプロンプト".toList m = a5
  generalize hA6 : containsSub "改善".toList m = a6
  generalize hA7 : containsSub "プロンプト".toList m = a7
  generalize hA8 : containsSub "improve".toList (m.map asciiLower) = a8
  have i1 : a5 = true → a6 = true := by
    rw [← hA5, ← hA6]
    exact habs1
  have i2 : a5 = true → a7 = true := by
    rw [← hA5, ← hA7]
    exact habs2
  clear hA1 hA2 hA3 hA4 hA5 hA6 hA7 hA8 habs1 habs2 hKaizen hPuro
  revert i1 i2
  revert a1 a2 a3 a4 a5 a6 a7 a8
  decide

/-- The specification classifier is invariant under ASCII lowercasing of the
message. -/
theorem spec_classifier_lower (m : Str) :
    taskClassifierSpec (m.map asciiLower) = taskClassifierSpec m := by
  unfold taskClassifierSpec
  simp only [map_asciiLower_idem]

/-! Lemmas about the session store. -/

/-- Looking up the updated key finds the updated session. -/
theorem lookup_updateSession_self (l : List (String × Session)) (sid : String)
    (f : Session → Session) :
    lookupSession (updateSession l sid f) sid = (lookupSession l sid).map f := by
  induction l with
  | nil => rfl
  | cons kv rest ih =>
    obtain ⟨k, v⟩ := kv
    show lookupSession ((if k = sid then (k, f v) else (k, v)) :: updateSession rest sid f) sid
      = Option.map f (if k = sid then some v else lookupSession rest sid)
    by_cases hk : k = sid
    · rw [if_pos hk, if_pos hk]
      show (if k = sid then some (f v) else lookupSession (updateSession rest sid f) sid)
        = some (f v)
      rw [if_pos hk]
    · rw [if_neg hk, if_neg hk]
      show (if k = sid then some v else lookupSession (updateSession rest sid f) sid)
        = Option.map f (lookupSession rest sid)
      rw [if_neg hk]
      exact ih

/-- Looking up any other key is unaffected by an update. -/
theorem lookup_updateSession_ne (l : List (String × Session)) {sid sid' : String}
    (h : sid' ≠ sid) (f : Session → Session) :
    lookupSession (updateSession l sid f) sid' = lookupSession l sid' := by
  induction l with
  | nil => rfl
  | cons kv rest ih =>
    obtain ⟨k, v⟩ := kv
    show lookupSession ((if k = sid then (k, f v) else (k, v)) :: updateSession rest sid f) sid'
      = (if k = sid' then some v else lookupSession rest sid')
    by_cases hk : k = sid
    · rw [if_pos hk]
      have hne : k ≠ sid' := by
        rw [hk]
        exact fun hh => h hh.symm
      show (if k = sid' then some (f v) else lookupSession (updateSession rest sid f) sid')
        = (if k = sid' then some v else lookupSession rest sid')
      rw [if_neg hne, if_neg hne]
      exact ih
    · rw [if_neg hk]
      show (if k = sid' then some v else lookupSession (updateSession rest sid f) sid')
        = (if k = sid' then some v else lookupSession rest sid')
      by_cases hk2 : k = sid'
      · rw [if_pos hk2, if_pos hk2]
      · rw [if_neg hk2, if_neg hk2]
        exact ih

/-- Looking up the key just set finds the new session. -/
theorem lookup_dictSet_self (l : List (String × Session)) (k : String)
    (v : Session) : lookupSession (dictSet l k v) k = some v := by
  induction l with
  | nil =>
    show (if k = k then some v else none) = some v
    rw [if_pos rfl]
  | cons kv rest ih =>
    obtain ⟨k', v'⟩ := kv
    show lookupSession (if k' = k then (k, v) :: rest else (k', v') :: dictSet rest k v) k
      = some v
    by_cases hk : k' = k
    · rw [if_pos hk]
      show (if k = k then some v else lookupSession rest k) = some v
      rw [if_pos rfl]
    · rw [if_neg hk]
      show (if k' = k then some v' else lookupSession (dictSet rest k v) k) = some v
      rw [if_neg hk]
      exact ih

/-- Updating preserves the store size. -/
theorem length_updateSession (l : List (String × Session)) (sid : String)
    (f : Session → Session) : (updateSession l sid f).length = l.length := by
  simp [updateSession]

/-- Setting a key grows the store by at most one entry. -/
theorem length_dictSet_le (l : List (String × Session)) (k : String)
    (v : Session) : (dictSet l k v).length ≤ l.length + 1 := by
  induction l with
  | nil => simp [dictSet]
  | cons kv rest ih =>
    cases kv with
    | mk k' v' =>
      simp only [dictSet]
      by_cases hk : k' = k
      · rw [if_pos hk]
        simp
      · rw [if_neg hk]
        simp only [List.length_cons]
        omega

/-- An in-place update preserves existence of the updated key. -/
theorem lookup_isSome_update {l : List (String × Session)} {sid : String}
    (h : (lookupSession l sid).isSome = true) (f : Session → Session) :
    (lookupSession (updateSession l sid f) sid).isSome = true := by
  rw [lookup_updateSession_self]
  cases hx : lookupSession l sid with
  | none => rw [hx] at h; cases h
  | some s => rfl

/-- Branch equation: no session id supplied. -/
theorem getOrCreateBase_none (st : ServiceState) (tt : String)
    (sp : Option String) (mn : String) (now : Nat) (fid : String) :
    getOrCreateBase st none tt sp mn now fid
      = (fid, dictSet st.sessions fid (newSession tt sp mn now)) := rfl

/-- Branch equation: a session id was supplied. -/
theorem getOrCreateBase_some (st : ServiceState) (sid0 tt : String)
    (sp : Option String) (mn : String) (now : Nat) (fid : String) :
    getOrCreateBase st (some sid0) tt sp mn now fid
      = if (lookupSession st.sessions sid0).isSome = true then
          getOrCreateKnown st sid0 tt sp
        else (fid, dictSet st.sessions fid (newSession tt sp mn now)) := rfl

/-- Branch equation: known session, no override. -/
theorem getOrCreateKnown_none (st : ServiceState) (sid0 tt : String) :
    getOrCreateKnown st sid0 tt none = (sid0, st.sessions) := rfl

/-- Branch equation: known session, an override was supplied. -/
theorem getOrCreateKnown_some (st : ServiceState) (sid0 tt spv : String) :
    getOrCreateKnown st sid0 tt (some spv)
      = if spv ≠ "" then
          (sid0, updateSession st.sessions sid0
            (fun s => { s with system_prompt := spv, task_type := tt }))
        else (sid0, st.sessions) := rfl

/-- The session reached by `getOrCreateBase` exists in the returned store. -/
theorem getOrCreateBase_isSome (st : ServiceState) (si : Option String)
    (tt : String) (sp : Option String) (mn : String) (now : Nat)
    (fid : String) :
    (lookupSession (getOrCreateBase st si tt sp mn now fid).2
      (getOrCreateBase st si tt sp mn now fid).1).isSome = true := by
  have hfresh : (lookupSession
      (dictSet st.sessions fid (newSession tt sp mn now)) fid).isSome = true := by
    rw [lookup_dictSet_self]
    rfl
  cases si with
  | none =>
    rw [getOrCreateBase_none]
    exact hfresh
  | some sid0 =>
    rw [getOrCreateBase_some]
    cases hls : (lookupSession st.sessions sid0).isSome with
    | false =>
      rw [if_neg Bool.false_ne_true]
      exact hfresh
    | true =>
      rw [if_pos rfl]
      cases sp with
      | none =>
        rw [getOrCreateKnown_none]
        show (lookupSession st.sessions sid0).isSome = true
        exact hls
      | some spv =>
        rw [getOrCreateKnown_some]
        by_cases hsp : spv ≠ ""
        · rw [if_pos hsp]
          show (lookupSession (updateSession st.sessions sid0
            (fun s => { s with system_prompt := spv, task_type := tt }))
              sid0).isSome = true
          exact lookup_isSome_update hls _
        · rw [if_neg hsp]
          show (lookupSession st.sessions sid0).isSome = true
          exact hls

/-- The session reached by `getOrCreateSession` exists in the returned
store. -/
theorem getOrCreate_lookup_isSome (st : ServiceState) (si : Option String)
    (tt : String) (sp : Option String) (mn : String) (now : Nat)
    (fid : String) :
    (lookupSession (getOrCreateSession st si tt sp mn now fid).2.sessions
      (getOrCreateSession st si tt sp mn now fid).1).isSome = true := by
  unfold getOrCreateSession
  simp only []
  apply lookup_isSome_update
  split
  · exact lookup_isSome_update (getOrCreateBase_isSome st si tt sp mn now fid) _
  · exact getOrCreateBase_isSome st si tt sp mn now fid

/-- Appending then trimming leaves the appended message last. -/
theorem trimHistory_getLast (maxH : Nat) (l : List Message) (x : Message) :
    (trimHistory maxH (l ++ [x])).getLast? = some x := by
  unfold trimHistory pyLastSlice
  by_cases h1 : maxH * 2 < (l ++ [x]).length
  · rw [if_pos h1]
    by_cases h2 : maxH * 2 = 0
    · rw [if_pos h2]
      exact List.getLast?_concat l
    · rw [if_neg h2]
      have hle : (l ++ [x]).length - maxH * 2 ≤ l.length := by
        simp only [List.length_append, List.length_singleton]
        omega
      rw [List.drop_append_of_le_length hle]
      exact List.getLast?_concat _
  · rw [if_neg h1]
    exact List.getLast?_concat l

/-- After `_add_user_message`, the addressed session exists and its last
message is the user message just appended. -/
theorem lookup_addUser (st : ServiceState) (sid : String) (content : Str)
    (now : Nat) (h : (lookupSession st.sessions sid).isSome = true) :
    (lookupSession (addUserMessage st sid content now).sessions sid).map
      (fun s => s.messages.getLast?) = some (some ⟨Role.user, content, now⟩) := by
  unfold addUserMessage
  simp only []
  rw [lookup_updateSession_self]
  obtain ⟨s, hs⟩ := Option.isSome_iff_exists.mp h
  rw [hs]
  show some (trimHistory st.max_history_messages
    (s.messages ++ [⟨Role.user, content, now⟩])).getLast? = _
  rw [trimHistory_getLast]

/-- The prelude of `chat` leaves the model cache untouched. -/
theorem chatPrelude_models (st : ServiceState) (msg : Str)
    (si : Option String) (sp : Option String) (mp : Option String)
    (tp : Option String) (now : Nat) (fid : String) :
    (chatPrelude st msg si sp mp tp now fid).state.models = st.models := rfl

/-- The prelude of `chat` leaves the tokenizer cache untouched. -/
theorem chatPrelude_tokenizers (st : ServiceState) (msg : Str)
    (si : Option String) (sp : Option String) (mp : Option String)
    (tp : Option String) (now : Nat) (fid : String) :
    (chatPrelude st msg si sp mp tp now fid).state.tokenizers = st.tokenizers := rfl

/-- After the prelude of `chat`, the addressed session exists and its last
message is the user message appended before generation. -/
theorem chatPrelude_getLast (st : ServiceState) (msg : Str)
    (si : Option String) (sp : Option String) (mp : Option String)
    (tp : Option String) (now : Nat) (fid : String) :
    (lookupSession (chatPrelude st msg si sp mp tp now fid).state.sessions
      (chatPrelude st msg si sp mp tp now fid).sid).map
        (fun s => s.messages.getLast?) = some (some ⟨Role.user, msg, now⟩) := by
  unfold chatPrelude
  simp only []
  exact lookup_addUser _ _ _ _ (getOrCreate_lookup_isSome _ _ _ _ _ _ _)

/-- An external load failure surfaces as the exception, untouched cache. -/
theorem loadModelStep_error (st : ServiceState) (name : String) (e : String)
    (h : st.models.contains name = false) :
    loadModelStep st name (Except.error e) = Except.error e := by
  unfold loadModelStep
  rw [h]
  simp

/-- A successful load step never changes the session store. -/
theorem loadModelStep_ok_sessions {st st2 : ServiceState} {name : String}
    {lo : Except String Unit} (h : loadModelStep st name lo = Except.ok st2) :
    st2.sessions = st.sessions := by
  unfold loadModelStep at h
  split at h
  · cases h
    rfl
  · cases lo with
    | error e => cases h
    | ok u =>
      cases h
      rfl

/-! One-step evaluation of the `chat` phases. -/

/-- Phase equation: `chat` is the prelude, the load phase, then the
generation phase. -/
theorem chatStep_eq (st : ServiceState) (message : Str)
    (sessionId systemPrompt modelName taskType : Option String)
    (now : Nat) (freshId : String) (loadOutcome : Except String Unit)
    (genOutcome : Except String Str) :
    chatStep st message sessionId systemPrompt modelName taskType now freshId
        loadOutcome genOutcome
      = chatAfterLoad
          (chatPrelude st message sessionId systemPrompt modelName taskType now freshId)
          message now genOutcome
          (loadModelStep
            (chatPrelude st message sessionId systemPrompt modelName taskType now freshId).state
            (chatPrelude st message sessionId systemPrompt modelName taskType now freshId).usedModel
            loadOutcome) := rfl

/-- Phase equation: a load failure ends the call. -/
theorem chatAfterLoad_error (p : PreludeOut) (message : Str) (now : Nat)
    (genOutcome : Except String Str) (e : String) :
    chatAfterLoad p message now genOutcome (Except.error e)
      = (Except.error e, p.state) := rfl

/-- Phase equation: a successful load proceeds to generation. -/
theorem chatAfterLoad_ok (p : PreludeOut) (message : Str) (now : Nat)
    (genOutcome : Except String Str) (st2 : ServiceState) :
    chatAfterLoad p message now genOutcome (Except.ok st2)
      = chatGen p message now st2 genOutcome := rfl

/-- Phase equation: a generation failure ends the call with the user message
retained. -/
theorem chatGen_error (p : PreludeOut) (message : Str) (now : Nat)
    (st2 : ServiceState) (e : String) :
    chatGen p message now st2 (Except.error e) = (Except.error e, st2) := rfl

/-- Phase equation: a successful generation is post-processed and appended. -/
theorem chatGen_ok (p : PreludeOut) (message : Str) (now : Nat)
    (st2 : ServiceState) (raw : Str) :
    chatGen p message now st2 (Except.ok raw)
      = (Except.ok ⟨processTaskSpecific (generateResponsePost raw p.sessTask)
            p.sessTask message, p.sid, p.usedModel, now⟩,
         { st2 with
           sessions := updateSession st2.sessions p.sid
             (fun s =>
               { s with
                 messages := s.messages
                   ++ [⟨Role.assistant,
                       processTaskSpecific (generateResponsePost raw p.sessTask)
                         p.sessTask message, now⟩] }) }) := rfl

/-- A cached model is returned without consulting the external load. -/
theorem loadModelStep_cached (st : ServiceState) (name : String)
    (lo : Except String Unit) (h : st.models.contains name = true) :
    loadModelStep st name lo = Except.ok st := by
  unfold loadModelStep
  rw [h]
  rfl

/-- Head lookup in the session store. -/
theorem lookup_cons_self (k : String) (v : Session)
    (rest : List (String × Session)) :
    lookupSession ((k, v) :: rest) k = some v := by
  show (if k = k then some v else lookupSession rest k) = some v
  rw [if_pos rfl]

/-! Evaluation of the concrete single-session runs. All states are written
as explicit record literals so that projections reduce. -/

/-- The cleanup pass leaves the concrete singleton store unchanged. -/
theorem cleanup_singleton (maxH : Nat) (msgs : List Message) (sys tt : String)
    (ca : Nat) :
    cleanupOldSessions
        { model_name := "m", max_history_messages := maxH,
          session_timeout := 100, max_sessions := 5, models := ["m"],
          tokenizers := ["m"],
          sessions := [("s1", ⟨msgs, sys, "m", tt, ca, 0⟩)] } 0
      = { model_name := "m", max_history_messages := maxH,
          session_timeout := 100, max_sessions := 5, models := ["m"],
          tokenizers := ["m"],
          sessions := [("s1", ⟨msgs, sys, "m", tt, ca, 0⟩)] } := by
  unfold cleanupOldSessions expireSessions enforceCapacity
  simp

/-- The cleanup pass leaves the empty store unchanged. -/
theorem cleanup_empty (maxH : Nat) :
    cleanupOldSessions (baseState maxH) 0 = baseState maxH := by
  unfold cleanupOldSessions expireSessions enforceCapacity baseState
  simp

/-- Getting the known session `s1` of the singleton store changes nothing
(the model name it re-assigns and the refreshed last access already have
those values). -/
theorem getOrCreate_singleton (maxH : Nat) (msgs : List Message)
    (sys tt : String) (ca : Nat) (tt2 : String) :
    getOrCreateSession
        { model_name := "m", max_history_messages := maxH,
          session_timeout := 100, max_sessions := 5, models := ["m"],
          tokenizers := ["m"],
          sessions := [("s1", ⟨msgs, sys, "m", tt, ca, 0⟩)] }
        (some "s1") tt2 none "m" 0 "s1"
      = ("s1",
         { model_name := "m", max_history_messages := maxH,
           session_timeout := 100, max_sessions := 5, models := ["m"],
           tokenizers := ["m"],
           sessions := [("s1", ⟨msgs, sys, "m", tt, ca, 0⟩)] }) := by
  unfold getOrCreateSession
  simp only []
  rw [getOrCreateBase_some]
  simp only [lookup_cons_self, Option.isSome_some, eq_self_iff_true, if_true]
  rw [getOrCreateKnown_none]
  rw [if_pos (by decide : ("m" : String) ≠ "")]
  simp [updateSession]

/-- Creating session `s1` in the empty store. -/
theorem getOrCreate_fresh (maxH : Nat) (tt : String) :
    getOrCreateSession (baseState maxH) (some "s1") tt none "m" 0 "s1"
      = ("s1",
         { model_name := "m", max_history_messages := maxH,
           session_timeout := 100, max_sessions := 5, models := ["m"],
           tokenizers := ["m"],
           sessions := [("s1", ⟨[], taskPromptsGet tt, "m", tt, 0, 0⟩)] }) := by
  unfold getOrCreateSession
  simp only []
  rw [getOrCreateBase_some]
  rw [if_neg (by simp [baseState, lookupSession])]
  rw [if_pos (by decide : ("m" : String) ≠ "")]
  simp [updateSession, baseState, dictSet, newSession, getSystemPromptForTask]

/-- Appending the user message to the singleton store. -/
theorem addUser_singleton (maxH : Nat) (msgs : List Message) (sys tt : String)
    (ca : Nat) :
    addUserMessage
        { model_name := "m", max_history_messages := maxH,
          session_timeout := 100, max_sessions := 5, models := ["m"],
          tokenizers := ["m"],
          sessions := [("s1", ⟨msgs, sys, "m", tt, ca, 0⟩)] }
        "s1" "hi".toList 0
      = { model_name := "m", max_history_messages := maxH,
          session_timeout := 100, max_sessions := 5, models := ["m"],
          tokenizers := ["m"],
          sessions := [("s1",
            ⟨trimHistory maxH (msgs ++ [⟨Role.user, "hi".toList, 0⟩]),
              sys, "m", tt, ca, 0⟩)] } := by
  unfold addUserMessage
  simp [updateSession]

/-- The prelude of the concrete call on the singleton store. -/
theorem chatPrelude_singleton (maxH : Nat) (msgs : List Message)
    (sys tt : String) (ca : Nat) :
    chatPrelude
        { model_name := "m", max_history_messages := maxH,
          session_timeout := 100, max_sessions := 5, models := ["m"],
          tokenizers := ["m"],
          sessions := [("s1", ⟨msgs, sys, "m", tt, ca, 0⟩)] }
        "hi".toList (some "s1") none none none 0 "s1"
      = ⟨"s1", "m", tt,
         { model_name := "m", max_history_messages := maxH,
           session_timeout := 100, max_sessions := 5, models := ["m"],
           tokenizers := ["m"],
           sessions := [("s1",
             ⟨trimHistory maxH (msgs ++ [⟨Role.user, "hi".toList, 0⟩]),
               sys, "m", tt, ca, 0⟩)] }⟩ := by
  unfold chatPrelude
  simp only [Option.getD_none]
  rw [cleanup_singleton maxH msgs sys tt ca, getOrCreate_singleton]
  simp only [lookup_cons_self, Option.map_some', Option.getD_some]
  rw [addUser_singleton]

/-- The prelude of the concrete call on the empty store. -/
theorem chatPrelude_fresh (maxH : Nat) :
    chatPrelude (baseState maxH) "hi".toList (some "s1") none none none 0 "s1"
      = ⟨"s1", "m", "general",
         { model_name := "m", max_history_messages := maxH,
           session_timeout := 100, max_sessions := 5, models := ["m"],
           tokenizers := ["m"],
           sessions := [("s1",
             ⟨trimHistory maxH [⟨Role.user, "hi".toList, 0⟩],
               generalTaskPrompt, "m", "general", 0, 0⟩)] }⟩ := by
  have hdet : detectTaskType "hi".toList = "general" := by decide
  have hgen : taskPromptsGet "general" = generalTaskPrompt := rfl
  unfold chatPrelude
  simp only [Option.getD_none]
  rw [show (baseState maxH).model_name = "m" from rfl]
  rw [hdet, cleanup_empty, getOrCreate_fresh, hgen]
  simp only [lookup_cons_self, Option.map_some', Option.getD_some]
  have hadd := addUser_singleton maxH [] generalTaskPrompt "general" 0
  simp only [List.nil_append] at hadd
  rw [hadd]

/-- A `chat` call on a fresh store creates session `s1` with one exchange. -/
theorem chatOnce_fresh (maxH : Nat) :
    chatOnce (baseState maxH) "s1" =
      (Except.ok ⟨"ok".toList, "s1", "m", 0⟩,
       { model_name := "m", max_history_messages := maxH,
         session_timeout := 100, max_sessions := 5, models := ["m"],
         tokenizers := ["m"],
         sessions := [("s1",
           ⟨trimHistory maxH [⟨Role.user, "hi".toList, 0⟩]
               ++ [⟨Role.assistant, "ok".toList, 0⟩],
             generalTaskPrompt, "m", "general", 0, 0⟩)] }) := by
  have hresp : processTaskSpecific (generateResponsePost "ok".toList "general")
      "general" "hi".toList = "ok".toList := by decide
  show chatStep (baseState maxH) "hi".toList (some "s1") none none none 0 "s1"
      (Except.ok ()) (Except.ok "ok".toList) = _
  rw [chatStep_eq, chatPrelude_fresh]
  rw [loadModelStep_cached]
  · rw [chatAfterLoad_ok, chatGen_ok]
    simp [updateSession]
    exact hresp
  · rfl

/-- A `chat` call on a single-session store appends one exchange to that
session, trimming the history on the user append. -/
theorem chatOnce_singleton (maxH : Nat) (msgs : List Message) (sys : String)
    (tt : String) (ca : Nat) :
    chatOnce
        { model_name := "m", max_history_messages := maxH,
          session_timeout := 100, max_sessions := 5, models := ["m"],
          tokenizers := ["m"],
          sessions := [("s1", ⟨msgs, sys, "m", tt, ca, 0⟩)] } "s1" =
      (Except.ok ⟨processTaskSpecific (generateResponsePost "ok".toList tt) tt
          "hi".toList, "s1", "m", 0⟩,
       { model_name := "m", max_history_messages := maxH,
         session_timeout := 100, max_sessions := 5, models := ["m"],
         tokenizers := ["m"],
         sessions := [("s1",
           ⟨trimHistory maxH (msgs ++ [⟨Role.user, "hi".toList, 0⟩])
               ++ [⟨Role.assistant,
                   processTaskSpecific (generateResponsePost "ok".toList tt) tt
                     "hi".toList, 0⟩],
             sys, "m", tt, ca, 0⟩)] }) := by
  show chatStep _ "hi".toList (some "s1") none none none 0 "s1"
      (Except.ok ()) (Except.ok "ok".toList) = _
  rw [chatStep_eq, chatPrelude_singleton]
  rw [loadModelStep_cached]
  · rw [chatAfterLoad_ok, chatGen_ok]
    simp [updateSession]
  · rfl

/-- Length of a trimmed history (the bound is only effective for a positive
history limit; for `max_history_messages = 0` the Python slice `[-0:]` keeps
everything). -/
theorem trimHistory_length (maxH : Nat) (hH : 1 ≤ maxH) (l : List Message) :
    (trimHistory maxH l).length = min l.length (maxH * 2) := by
  unfold trimHistory pyLastSlice
  by_cases h1 : maxH * 2 < l.length
  · rw [if_pos h1, if_neg (by omega)]
    rw [List.length_drop]
    omega
  · rw [if_neg h1]
    omega

/-- Invariant of the single-session run: after `N ≥ 1` completed calls the
store holds exactly session `s1`, owned by model `m`, last accessed at time
0, whose message count is `min (2 N) (2 maxH + 1)`. -/
theorem chatIter_inv (maxH : Nat) (hH : 1 ≤ maxH) :
    ∀ N, 1 ≤ N → ∃ msgs sys tt ca,
      chatIter maxH N
        = { model_name := "m", max_history_messages := maxH,
            session_timeout := 100, max_sessions := 5, models := ["m"],
            tokenizers := ["m"],
            sessions := [("s1", ⟨msgs, sys, "m", tt, ca, 0⟩)] }
      ∧ msgs.length = min (2 * N) (2 * maxH + 1) := by
  intro N
  induction N with
  | zero => intro h; omega
  | succ n ih =>
    intro _
    by_cases hn : 1 ≤ n
    · obtain ⟨msgs, sys, tt, ca, hst, hlen⟩ := ih hn
      refine ⟨trimHistory maxH (msgs ++ [⟨Role.user, "hi".toList, 0⟩])
          ++ [⟨Role.assistant,
              processTaskSpecific (generateResponsePost "ok".toList tt) tt
                "hi".toList, 0⟩], sys, tt, ca, ?_, ?_⟩
      · show (chatOnce (chatIter maxH n) "s1").2 = _
        rw [hst, chatOnce_singleton]
      · have htl := trimHistory_length maxH hH
            (msgs ++ [⟨Role.user, "hi".toList, 0⟩])
        rw [List.length_append, htl, List.length_append]
        simp only [List.length_singleton]
        omega
    · have hn0 : n = 0 := by omega
      subst hn0
      refine ⟨trimHistory maxH [⟨Role.user, "hi".toList, 0⟩]
          ++ [⟨Role.assistant, "ok".toList, 0⟩], generalTaskPrompt,
          "general", 0, ?_, ?_⟩
      · show (chatOnce (chatIter maxH 0) "s1").2 = _
        show (chatOnce (baseState maxH) "s1").2 = _
        rw [chatOnce_fresh]
      · have htl := trimHistory_length maxH hH [⟨Role.user, "hi".toList, 0⟩]
        rw [List.length_append, htl]
        simp only [List.length_singleton]
        omega

/-! Capacity and eviction-order properties of the session store. -/

/-- Stable insertion permutes to a cons. -/
theorem insertSessionLe_perm (a : String × Session) :
    ∀ l, List.Perm (insertSessionLe a l) (a :: l) := by
  intro l
  induction l with
  | nil => exact List.Perm.refl _
  | cons b bs ih =>
    show List.Perm
      (if sessionLe a b then a :: b :: bs else b :: insertSessionLe a bs)
      (a :: b :: bs)
    by_cases h : sessionLe a b
    · rw [if_pos h]
    · rw [if_neg h]
      exact (ih.cons b).trans (List.Perm.swap a b bs)

/-- The eviction sort is a permutation of its input. -/
theorem sortSessions_perm : ∀ l, List.Perm (sortSessions l) l := by
  intro l
  induction l with
  | nil => exact List.Perm.refl _
  | cons x xs ih =>
    show List.Perm (insertSessionLe x (sortSessions xs)) (x :: xs)
    exact (insertSessionLe_perm x (sortSessions xs)).trans (ih.cons x)

/-- `sessionLe` is transitive. -/
theorem sessionLe_trans {a b c : String × Session} (h1 : sessionLe a b = true)
    (h2 : sessionLe b c = true) : sessionLe a c = true := by
  simp only [sessionLe, decide_eq_true_eq] at *
  omega

/-- `sessionLe` is total. -/
theorem sessionLe_total (a b : String × Session) :
    sessionLe a b = true ∨ sessionLe b a = true := by
  simp only [sessionLe, decide_eq_true_eq]
  omega

/-- Stable insertion preserves sortedness. -/
theorem insertSessionLe_pairwise (a : String × Session) :
    ∀ l, l.Pairwise (fun x y => sessionLe x y = true) →
      (insertSessionLe a l).Pairwise (fun x y => sessionLe x y = true) := by
  intro l
  induction l with
  | nil =>
    intro _
    simp [insertSessionLe]
  | cons b bs ih =>
    intro hp
    rw [List.pairwise_cons] at hp
    obtain ⟨hb, hbs⟩ := hp
    show (if sessionLe a b then a :: b :: bs else b :: insertSessionLe a bs).Pairwise _
    by_cases h : sessionLe a b
    · rw [if_pos h]
      rw [List.pairwise_cons]
      refine ⟨?_, List.pairwise_cons.mpr ⟨hb, hbs⟩⟩
      intro y hy
      rcases List.mem_cons.mp hy with rfl | hy2
      · exact h
      · exact sessionLe_trans h (hb y hy2)
    · rw [if_neg h]
      rw [List.pairwise_cons]
      refine ⟨?_, ih hbs⟩
      intro y hy
      have hy2 : y ∈ a :: bs := (insertSessionLe_perm a bs).mem_iff.mp hy
      rcases List.mem_cons.mp hy2 with rfl | hy3
      · rcases sessionLe_total y b with h1 | h2
        · exact absurd h1 h
        · exact h2
      · exact hb y hy3

/-- The eviction sort output is sorted by ascending last access. -/
theorem sortSessions_pairwise :
    ∀ l, (sortSessions l).Pairwise (fun x y => sessionLe x y = true) := by
  intro l
  induction l with
  | nil => exact List.Pairwise.nil
  | cons x xs ih =>
    exact insertSessionLe_pairwise x (sortSessions xs) ih

/-- An entry surviving the capacity pass lies in the kept part of the sorted
store (the part after the first `length - cap` entries). -/
theorem enforceCapacity_kept_drop (cap : Nat) (l : List (String × Session))
    {kv : String × Session}
    (h : kv ∈ l.filter (fun kv =>
      !(((sortSessions l).take (l.length - cap)).map Prod.fst).contains kv.1)) :
    kv ∈ (sortSessions l).drop (l.length - cap) := by
  rw [List.mem_filter] at h
  obtain ⟨hmem, hkey⟩ := h
  have hmem2 : kv ∈ (sortSessions l).take (l.length - cap)
      ++ (sortSessions l).drop (l.length - cap) := by
    rw [List.take_append_drop]
    exact (sortSessions_perm l).mem_iff.mpr hmem
  rcases List.mem_append.mp hmem2 with h1 | h2
  · exfalso
    have hks : kv.1 ∈ ((sortSessions l).take (l.length - cap)).map Prod.fst :=
      List.mem_map_of_mem Prod.fst h1
    have hc : (((sortSessions l).take (l.length - cap)).map Prod.fst).contains
        kv.1 = true := List.elem_eq_true_of_mem hks
    rw [hc] at hkey
    cases hkey
  · exact h2

/-- The capacity pass keeps at most `cap` entries when the store keys are
distinct. -/
theorem enforceCapacity_length (cap : Nat) (l : List (String × Session))
    (hnd : (l.map Prod.fst).Nodup) :
    (enforceCapacity cap l).length ≤ cap := by
  unfold enforceCapacity
  by_cases hover : cap < l.length
  · rw [if_pos hover]
    simp only []
    have hndl : l.Nodup := hnd.of_map Prod.fst
    have hndf : (l.filter (fun kv =>
        !(((sortSessions l).take (l.length - cap)).map Prod.fst).contains kv.1)).Nodup :=
      (List.filter_sublist l).nodup hndl
    have hsp := List.subperm_of_subset hndf
      (fun kv hkv => enforceCapacity_kept_drop cap l hkv)
    have hlen := hsp.length_le
    have hslen : (sortSessions l).length = l.length :=
      (sortSessions_perm l).length_eq
    rw [List.length_drop, hslen] at hlen
    omega
  · rw [if_neg hover]
    omega

/-- Eviction order of the capacity pass: an entry removed by it was last
accessed no later than every kept entry. -/
theorem enforceCapacity_order (cap : Nat) (l : List (String × Session))
    (hnd : (l.map Prod.fst).Nodup) :
    ∀ kv ∈ l, kv ∉ enforceCapacity cap l →
      ∀ kv2 ∈ enforceCapacity cap l, kv.2.last_access ≤ kv2.2.last_access := by
  intro kv hkv hnot kv2 hkv2
  unfold enforceCapacity at hnot hkv2
  by_cases hover : cap < l.length
  case neg =>
    rw [if_neg hover] at hnot
    exact absurd hkv hnot
  rw [if_pos hover] at hnot hkv2
  simp only [] at hnot hkv2
  have hdrop2 : kv2 ∈ (sortSessions l).drop (l.length - cap) :=
    enforceCapacity_kept_drop cap l hkv2
  have hck : (((sortSessions l).take (l.length - cap)).map Prod.fst).contains
      kv.1 = true := by
    cases hb : (((sortSessions l).take (l.length - cap)).map Prod.fst).contains kv.1
    · exact absurd (List.mem_filter.mpr ⟨hkv, by rw [hb]; rfl⟩) hnot
    · rfl
  have hksmem : kv.1 ∈ ((sortSessions l).take (l.length - cap)).map Prod.fst :=
    List.mem_of_elem_eq_true hck
  obtain ⟨kv0, hkv0take, hkey⟩ := List.mem_map.mp hksmem
  have hndsorted : ((sortSessions l).map Prod.fst).Nodup :=
    ((sortSessions_perm l).map Prod.fst).nodup_iff.mpr hnd
  have hkveq : kv0 = kv :=
    List.inj_on_of_nodup_map hndsorted (List.mem_of_mem_take hkv0take)
      ((sortSessions_perm l).mem_iff.mpr hkv) hkey
  rw [hkveq] at hkv0take
  have hpw := sortSessions_pairwise l
  rw [← List.take_append_drop (l.length - cap) (sortSessions l)] at hpw
  have hle := (List.pairwise_append.mp hpw).2.2 kv hkv0take kv2 hdrop2
  simpa [sessionLe, decide_eq_true_eq] using hle

/-- The cleanup pass leaves the store within capacity (for distinct keys). -/
theorem cleanup_length (st : ServiceState) (now : Nat)
    (hnd : (st.sessions.map Prod.fst).Nodup) :
    (cleanupOldSessions st now).sessions.length ≤ st.max_sessions := by
  show (enforceCapacity st.max_sessions (expireSessions st now)).length ≤ _
  apply enforceCapacity_length
  exact hnd.sublist ((List.filter_sublist st.sessions).map Prod.fst)

/-- The get-or-create step grows the store by at most one entry. -/
theorem getOrCreateBase_length (st : ServiceState) (si : Option String)
    (tt : String) (sp : Option String) (mn : String) (now : Nat)
    (fid : String) :
    ((getOrCreateBase st si tt sp mn now fid).2).length
      ≤ st.sessions.length + 1 := by
  cases si with
  | none =>
    rw [getOrCreateBase_none]
    exact length_dictSet_le _ _ _
  | some sid0 =>
    rw [getOrCreateBase_some]
    by_cases h : (lookupSession st.sessions sid0).isSome = true
    · rw [if_pos h]
      cases sp with
      | none =>
        rw [getOrCreateKnown_none]
        exact Nat.le_succ _
      | some spv =>
        rw [getOrCreateKnown_some]
        by_cases hsp : spv ≠ ""
        · rw [if_pos hsp]
          show (updateSession st.sessions sid0
            (fun s => { s with system_prompt := spv, task_type := tt })).length
              ≤ st.sessions.length + 1
          rw [length_updateSession]
          omega
        · rw [if_neg hsp]
          exact Nat.le_succ _
    · rw [if_neg h]
      exact length_dictSet_le _ _ _

/-- `_get_or_create_session` grows the store by at most one entry. -/
theorem getOrCreate_length (st : ServiceState) (si : Option String)
    (tt : String) (sp : Option String) (mn : String) (now : Nat)
    (fid : String) :
    ((getOrCreateSession st si tt sp mn now fid).2).sessions.length
      ≤ st.sessions.length + 1 := by
  unfold getOrCreateSession
  simp only []
  rw [length_updateSession]
  by_cases h : mn ≠ ""
  · rw [if_pos h, length_updateSession]
    exact getOrCreateBase_length st si tt sp mn now fid
  · rw [if_neg h]
    exact getOrCreateBase_length st si tt sp mn now fid

/-- The prelude of `chat` holds at most one entry above the post-cleanup
store size. -/
theorem chatPrelude_length (st : ServiceState) (message : Str)
    (si : Option String) (sp : Option String) (mp : Option String)
    (tp : Option String) (now : Nat) (fid : String) :
    (chatPrelude st message si sp mp tp now fid).state.sessions.length
      ≤ (cleanupOldSessions st now).sessions.length + 1 := by
  unfold chatPrelude
  simp only []
  show (addUserMessage _ _ _ _).sessions.length ≤ _
  unfold addUserMessage
  simp only []
  rw [length_updateSession]
  exact getOrCreate_length _ _ _ _ _ _ _

/-- A completed `chat` call never changes the store size after the prelude:
the load phase and the assistant append only update entries in place. -/
theorem chatStep_sessions_length (st : ServiceState) (message : Str)
    (si : Option String) (sp : Option String) (mp : Option String)
    (tp : Option String) (now : Nat) (fid : String)
    (lo : Except String Unit) (go : Except String Str) :
    ((chatStep st message si sp mp tp now fid lo go).2).sessions.length
      = (chatPrelude st message si sp mp tp now fid).state.sessions.length := by
  rw [chatStep_eq]
  cases hlo : loadModelStep (chatPrelude st message si sp mp tp now fid).state
      (chatPrelude st message si sp mp tp now fid).usedModel lo with
  | error e => rw [chatAfterLoad_error]
  | ok st2 =>
    rw [chatAfterLoad_ok]
    cases go with
    | error e =>
      rw [chatGen_error]
      show st2.sessions.length = _
      rw [loadModelStep_ok_sessions hlo]
    | ok raw =>
      rw [chatGen_ok]
      show (updateSession st2.sessions
          (chatPrelude st message si sp mp tp now fid).sid
          (fun s =>
            { s with
              messages := s.messages
                ++ [⟨Role.assistant,
                    processTaskSpecific
                      (generateResponsePost raw
                        (chatPrelude st message si sp mp tp now fid).sessTask)
                      (chatPrelude st message si sp mp tp now fid).sessTask
                      message, now⟩] })).length
        = (chatPrelude st message si sp mp tp now fid).state.sessions.length
      rw [length_updateSession, loadModelStep_ok_sessions hlo]

/-- The trimmed history is a suffix of the untrimmed history. -/
theorem trimHistory_suffix (maxH : Nat) (msgs : List Message) :
    trimHistory maxH msgs <:+ msgs := by
  unfold trimHistory pyLastSlice
  split
  · split
    · exact List.suffix_refl _
    · exact List.drop_suffix _ _
  · exact List.suffix_refl _

/-! The claims. -/

/-- C1: for a positive history limit and `N ≥ 1` completed `chat` calls to
one session, the message count is `min (2 N) (2 maxH + 1)` — not the
specified `min (2 N) (2 maxH)`: the trim runs on the user append, before the
assistant append, so the list can briefly hold one message above the
`2 maxH` bound. -/
theorem C1_session_message_count (maxH N : Nat) (hH : 1 ≤ maxH)
    (hN : 1 ≤ N) :
    sessionMessageCount (chatIter maxH N) "s1" = min (2 * N) (2 * maxH + 1) := by
  obtain ⟨msgs, sys, tt, ca, hst, hlen⟩ := chatIter_inv maxH hH N hN
  rw [hst]
  show ((lookupSession [("s1", ⟨msgs, sys, "m", tt, ca, 0⟩)] "s1").map
    (fun s => s.messages.length)).getD 0 = _
  rw [lookup_cons_self]
  show msgs.length = _
  exact hlen

/-- C1 witness: the count formula evaluated at `maxH = 1`, `N = 2`. -/
theorem C1_session_message_count_witness :
    1 ≤ 1 ∧ 1 ≤ 2
    ∧ sessionMessageCount (chatIter 1 2) "s1" = min (2 * 2) (2 * 1 + 1) :=
  ⟨Nat.le_refl 1, by decide,
   C1_session_message_count 1 2 (Nat.le_refl 1) (by decide)⟩

/-- C1 counterexample: with `maxH = 1`, two completed calls leave three
messages in the session — above the specified `2 maxH` bound and different
from the specified `min (2 N) (2 maxH)`. -/
theorem C1_bound_refuted :
    sessionMessageCount (chatIter 1 2) "s1" = 3
    ∧ 2 * 1 < sessionMessageCount (chatIter 1 2) "s1"
    ∧ sessionMessageCount (chatIter 1 2) "s1" ≠ min (2 * 2) (2 * 1) := by
  decide

/-- C2: for a store with distinct keys, the cleanup pass leaves at most
`max_sessions` sessions and a completed `chat` call leaves at most
`max_sessions + 1` (the corrected bound: the cleanup runs before the
insertion, so a fresh session can leave the store one above the limit);
eviction removes sessions in ascending last-access order — every removed,
non-expired session was last accessed no later than every kept one. -/
theorem C2_capacity_and_eviction (st : ServiceState) (now : Nat)
    (hnd : (st.sessions.map Prod.fst).Nodup) :
    (cleanupOldSessions st now).sessions.length ≤ st.max_sessions
    ∧ (∀ (message : Str) (si sp mp tp : Option String) (fid : String)
        (lo : Except String Unit) (go : Except String Str),
        ((chatStep st message si sp mp tp now fid lo go).2).sessions.length
          ≤ st.max_sessions + 1)
    ∧ (∀ kv ∈ expireSessions st now,
        kv ∉ (cleanupOldSessions st now).sessions →
          ∀ kv2 ∈ (cleanupOldSessions st now).sessions,
            kv.2.last_access ≤ kv2.2.last_access) := by
  have hndx : ((expireSessions st now).map Prod.fst).Nodup :=
    ((List.filter_sublist st.sessions).map Prod.fst).nodup hnd
  refine ⟨cleanup_length st now hnd, ?_, ?_⟩
  · intro message si sp mp tp fid lo go
    rw [chatStep_sessions_length]
    have h1 := chatPrelude_length st message si sp mp tp now fid
    have h2 := cleanup_length st now hnd
    omega
  · intro kv hkv hnot kv2 hkv2
    exact enforceCapacity_order st.max_sessions (expireSessions st now) hndx
      kv hkv hnot kv2 hkv2

/-- C2 witness: the cleanup bound evaluated on the concrete two-session
state. -/
theorem C2_capacity_and_eviction_witness :
    (twoSessState.sessions.map Prod.fst).Nodup
    ∧ (cleanupOldSessions twoSessState 0).sessions.length
        ≤ twoSessState.max_sessions :=
  ⟨by decide, (C2_capacity_and_eviction twoSessState 0 (by decide)).1⟩

/-- C2 counterexample: two completed `chat` calls with fresh ids on a
`max_sessions = 1` service leave two stored sessions, so the store does
exceed `max_sessions` after a completed call. -/
theorem C2_capacity_refuted :
    twoSessState.sessions.length = 2 ∧ twoSessState.max_sessions = 1 := by
  decide

/-- C3: trimming preserves turn alternation in the weak sense — adjacent
roles stay distinct and the kept list is a suffix of the original — but not
in the specified sense: the counterexample shows a trimmed history that
starts with an assistant message, because the Python slice keeps the last
`2 maxH` entries of an odd-length list, splitting a user/assistant pair. -/
theorem C3_trim_preserves_alternation (maxH : Nat) (msgs : List Message)
    (h : List.Chain' (fun a b => a ≠ b) (msgs.map Message.role)) :
    List.Chain' (fun a b => a ≠ b) ((trimHistory maxH msgs).map Message.role)
    ∧ trimHistory maxH msgs <:+ msgs := by
  refine ⟨?_, trimHistory_suffix maxH msgs⟩
  exact h.suffix ((trimHistory_suffix maxH msgs).map Message.role)

/-- C3 witness: alternation preservation on a concrete three-message
history. -/
theorem C3_trim_preserves_alternation_witness :
    List.Chain' (fun a b => a ≠ b)
      ((trimHistory 1 [⟨Role.user, "a".toList, 0⟩,
        ⟨Role.assistant, "b".toList, 0⟩,
        ⟨Role.user, "c".toList, 0⟩]).map Message.role)
    ∧ trimHistory 1 [⟨Role.user, "a".toList, 0⟩,
        ⟨Role.assistant, "b".toList, 0⟩, ⟨Role.user, "c".toList, 0⟩]
      <:+ [⟨Role.user, "a".toList, 0⟩, ⟨Role.assistant, "b".toList, 0⟩,
        ⟨Role.user, "c".toList, 0⟩] :=
  C3_trim_preserves_alternation 1 _ (by
    refine List.chain'_cons.mpr ⟨?_,
      List.chain'_cons.mpr ⟨?_, List.chain'_singleton _⟩⟩ <;> decide)

/-- C3 counterexample: after two completed calls with `maxH = 1`, the stored
history is assistant, user, assistant — the surviving list does not start
with a user message. -/
theorem C3_alternation_refuted :
    (lookupSession (chatIter 1 2).sessions "s1").map
      (fun s => s.messages.map Message.role)
      = some [Role.assistant, Role.user, Role.assistant] := by
  decide

/-- C4: the foreign-word check runs on the post-processed backend text, not
the raw backend output: whenever the post-processed text still contains two
foreign-alphabetic words, finalizing an improvement task returns exactly the
rule-based result computed with no backend text. The counterexample shows
the raw-output version of the claim is false: post-processing can launder
the foreign words away. -/
theorem C4_foreign_reject_post (userMessage raw : Str)
    (h : 2 ≤ countEnglishWords
      (pyStrip (generateResponsePost raw "image_prompt_improvement"))) :
    finalizeImprovement raw userMessage
      = processPromptImprovementRequest userMessage [] :=
  processImprove_fallback_of_english userMessage _ h

/-- C4 witness: a backend output whose two foreign words survive
post-processing is replaced by the rule-based result. -/
theorem C4_foreign_reject_post_witness :
    2 ≤ countEnglishWords
      (pyStrip (generateResponsePost "qqq www".toList
        "image_prompt_improvement"))
    ∧ finalizeImprovement "qqq www".toList
        "改善したいプロンプト：猫\n問題：".toList
      = processPromptImprovementRequest
          "改善したいプロンプト：猫\n問題：".toList [] :=
  ⟨by decide, C4_foreign_reject_post _ _ (by decide)⟩

/-- C4 counterexample: a backend output with two foreign-alphabetic words
whose post-processed form is accepted verbatim (with a final `。`), so the
backend text is returned and the rule-based result is not. -/
theorem C4_raw_reject_refuted :
    2 ≤ countEnglishWords
        "studio mirror 大きな鏡と木製の床と明るい照明".toList
    ∧ finalizeImprovement "studio mirror 大きな鏡と木製の床と明るい照明".toList
        "改善したいプロンプト：大きな鏡、高品質\n問題：鏡".toList
      = "スタジオ 鏡 大きな鏡と木製の床と明るい照明。".toList
    ∧ finalizeImprovement "studio mirror 大きな鏡と木製の床と明るい照明".toList
        "改善したいプロンプト：大きな鏡、高品質\n問題：鏡".toList
      ≠ processPromptImprovementRequest
          "改善したいプロンプト：大きな鏡、高品質\n問題：鏡".toList [] := by
  decide

/-- C5: the rule-based improver is a pure function of its two arguments, and
its output never contains the separator `、` twice in succession. -/
theorem C5_improve_pure_separator (p1 q1 p2 q2 : Str) (hp : p1 = p2)
    (hq : q1 = q2) :
    improvePrompt p1 q1 = improvePrompt p2 q2
    ∧ containsSub "、、".toList (improvePrompt p1 q1) = false := by
  subst hp
  subst hq
  exact ⟨rfl, improvePrompt_no_dd p1 q1⟩

/-- C5 witness: purity and the separator property at a concrete input. -/
theorem C5_improve_pure_separator_witness :
    improvePrompt "猫".toList [] = improvePrompt "猫".toList []
    ∧ containsSub "、、".toList (improvePrompt "猫".toList []) = false :=
  C5_improve_pure_separator "猫".toList [] "猫".toList [] rfl rfl

/-- C6: the improvement controller indeed never raises, and returns a
non-empty string whenever the extracted prompt has any substantive character
(anything besides separators and whitespace); the empty extraction returns
the fixed apology. The counterexample shows the unconditional claim is
false: a prompt consisting of a lone separator yields the empty string. -/
theorem C6_improvement_nonempty (userMessage llmResponse : Str)
    (h : ∃ c ∈ (extractOriginalPrompt userMessage).1,
      c ≠ '、' ∧ c ≠ ',' ∧ isSpace c = false) :
    processPromptImprovementRequest userMessage llmResponse ≠ []
    ∧ processPromptImprovementRequest [] llmResponse = apologyNoPrompt := by
  refine ⟨processImprove_ne_nil userMessage llmResponse h, ?_⟩
  rfl

/-- C6 witness: a substantive prompt yields a non-empty result. -/
theorem C6_improvement_nonempty_witness :
    processPromptImprovementRequest "改善したいプロンプト：猫".toList [] ≠ []
    ∧ processPromptImprovementRequest [] [] = apologyNoPrompt :=
  C6_improvement_nonempty "改善したいプロンプト：猫".toList [] (by decide)

/-- C6 counterexample: the message whose extracted prompt is the lone
separator `、` makes the controller return the empty string — not a
non-empty string and not either fixed last-resort message. -/
theorem C6_nonempty_refuted :
    processPromptImprovementRequest "改善したいプロンプト：、".toList [] = [] := by
  decide

/-- C7: when the load succeeds and the external generation call fails,
`chat` returns the structured error, the store is exactly the post-prelude
store (no assistant message is appended), and the addressed session ends
with the user message appended before generation. -/
theorem C7_generation_failure (st : ServiceState) (message : Str)
    (si sp mp tp : Option String) (now : Nat) (fid : String)
    (lo : Except String Unit) (e : String) (st2 : ServiceState)
    (hload : loadModelStep (chatPrelude st message si sp mp tp now fid).state
        (chatPrelude st message si sp mp tp now fid).usedModel lo
      = Except.ok st2) :
    chatStep st message si sp mp tp now fid lo (Except.error e)
      = (Except.error e, st2)
    ∧ st2.sessions
        = (chatPrelude st message si sp mp tp now fid).state.sessions
    ∧ (lookupSession st2.sessions
        (chatPrelude st message si sp mp tp now fid).sid).map
          (fun s => s.messages.getLast?)
      = some (some ⟨Role.user, message, now⟩) := by
  refine ⟨?_, loadModelStep_ok_sessions hload, ?_⟩
  · rw [chatStep_eq, hload, chatAfterLoad_ok, chatGen_error]
  · rw [loadModelStep_ok_sessions hload]
    exact chatPrelude_getLast st message si sp mp tp now fid

/-- C7 witness: a generation failure on the concrete singleton service. -/
theorem C7_generation_failure_witness :
    chatStep (singletonState 3 [] "sys" "general" 0) "hi".toList (some "s1")
        none none none 0 "s1" (Except.ok ()) (Except.error "boom")
      = (Except.error "boom",
         (chatPrelude (singletonState 3 [] "sys" "general" 0) "hi".toList
           (some "s1") none none none 0 "s1").state)
    ∧ (chatPrelude (singletonState 3 [] "sys" "general" 0) "hi".toList
        (some "s1") none none none 0 "s1").state.sessions
      = (chatPrelude (singletonState 3 [] "sys" "general" 0) "hi".toList
          (some "s1") none none none 0 "s1").state.sessions
    ∧ (lookupSession
        (chatPrelude (singletonState 3 [] "sys" "general" 0) "hi".toList
          (some "s1") none none none 0 "s1").state.sessions
        (chatPrelude (singletonState 3 [] "sys" "general" 0) "hi".toList
          (some "s1") none none none 0 "s1").sid).map
          (fun s => s.messages.getLast?)
      = some (some ⟨Role.user, "hi".toList, 0⟩) :=
  C7_generation_failure (singletonState 3 [] "sys" "general" 0) "hi".toList
    (some "s1") none none none 0 "s1" (Except.ok ()) "boom" _ rfl

/-- C8: when the addressed model is not cached and the external load fails,
`chat` returns the structured error with the post-prelude store, and the
model and tokenizer caches are exactly as before the attempt — no partial
entry. -/
theorem C8_load_failure (st : ServiceState) (message : Str)
    (si sp mp tp : Option String) (now : Nat) (fid : String) (e : String)
    (go : Except String Str)
    (hmiss : (chatPrelude st message si sp mp tp now fid).state.models.contains
      (chatPrelude st message si sp mp tp now fid).usedModel = false) :
    chatStep st message si sp mp tp now fid (Except.error e) go
      = (Except.error e, (chatPrelude st message si sp mp tp now fid).state)
    ∧ (chatPrelude st message si sp mp tp now fid).state.models = st.models
    ∧ (chatPrelude st message si sp mp tp now fid).state.tokenizers
        = st.tokenizers := by
  refine ⟨?_, chatPrelude_models st message si sp mp tp now fid,
    chatPrelude_tokenizers st message si sp mp tp now fid⟩
  rw [chatStep_eq, loadModelStep_error _ _ _ hmiss, chatAfterLoad_error]

/-- C8 witness: a failed load of an uncached model on the concrete singleton
service. -/
theorem C8_load_failure_witness :
    chatStep (singletonState 3 [] "sys" "general" 0) "hi".toList (some "s1")
        none (some "m2") none 0 "s1" (Except.error "load failed")
        (Except.ok "ok".toList)
      = (Except.error "load failed",
         (chatPrelude (singletonState 3 [] "sys" "general" 0) "hi".toList
           (some "s1") none (some "m2") none 0 "s1").state)
    ∧ (chatPrelude (singletonState 3 [] "sys" "general" 0) "hi".toList
        (some "s1") none (some "m2") none 0 "s1").state.models
      = (singletonState 3 [] "sys" "general" 0).models
    ∧ (chatPrelude (singletonState 3 [] "sys" "general" 0) "hi".toList
        (some "s1") none (some "m2") none 0 "s1").state.tokenizers
      = (singletonState 3 [] "sys" "general" 0).tokenizers :=
  C8_load_failure (singletonState 3 [] "sys" "general" 0) "hi".toList
    (some "s1") none (some "m2") none 0 "s1" "load failed"
    (Except.ok "ok".toList) rfl

/-- C9: the task classifier equals the specified ordered-rule classifier
(generation keywords first, then the improvement co-occurrence rules, else
general), and it is insensitive to ASCII case. -/
theorem C9_classifier_rules (m : Str) :
    detectTaskType m = taskClassifierSpec m
    ∧ detectTaskType (m.map asciiLower) = detectTaskType m := by
  refine ⟨detect_eq_spec m, ?_⟩
  rw [detect_eq_spec, detect_eq_spec]
  exact spec_classifier_lower m

/-- C10: a successful history read returns the session fields, refreshes
exactly the last-access timestamp of the addressed session, and leaves every
other session, the model cache and the configuration unchanged. -/
theorem C10_get_history_effect (st : ServiceState) (sid : String) (now : Nat)
    (s : Session) (h : lookupSession st.sessions sid = some s) :
    getHistory st sid now
      = (Except.ok ⟨sid, s.messages, s.system_prompt, s.created_at⟩,
         { st with sessions := updateSession st.sessions sid (fun s => { s with last_access := now }) })
    ∧ lookupSession (getHistory st sid now).2.sessions sid
        = some { s with last_access := now }
    ∧ (∀ sid2, sid2 ≠ sid →
        lookupSession (getHistory st sid now).2.sessions sid2
          = lookupSession st.sessions sid2)
    ∧ (getHistory st sid now).2.models = st.models
    ∧ (getHistory st sid now).2.max_sessions = st.max_sessions := by
  have heq : getHistory st sid now
      = (Except.ok ⟨sid, s.messages, s.system_prompt, s.created_at⟩,
         { st with sessions := updateSession st.sessions sid (fun s => { s with last_access := now }) }) := by
    unfold getHistory
    rw [h]
  refine ⟨heq, ?_, ?_, ?_, ?_⟩
  · rw [heq]
    show lookupSession (updateSession st.sessions sid
      (fun s => { s with last_access := now })) sid = _
    rw [lookup_updateSession_self, h]
    rfl
  · intro sid2 hne
    rw [heq]
    show lookupSession (updateSession st.sessions sid
      (fun s => { s with last_access := now })) sid2 = _
    exact lookup_updateSession_ne st.sessions hne _
  · rw [heq]
  · rw [heq]

/-- C10 witness: the history read on the concrete singleton service. -/
theorem C10_get_history_effect_witness :
    getHistory (singletonState 3 [⟨Role.user, "a".toList, 0⟩] "sys" "general" 0)
        "s1" 7
      = (Except.ok ⟨"s1", [⟨Role.user, "a".toList, 0⟩], "sys", 0⟩,
         { singletonState 3 [⟨Role.user, "a".toList, 0⟩] "sys" "general" 0 with
           sessions := updateSession (singletonState 3 [⟨Role.user, "a".toList, 0⟩] "sys" "general" 0).sessions "s1" (fun s => { s with last_access := 7 }) })
    ∧ lookupSession (getHistory
        (singletonState 3 [⟨Role.user, "a".toList, 0⟩] "sys" "general" 0)
        "s1" 7).2.sessions "s1"
      = some { (⟨[⟨Role.user, "a".toList, 0⟩], "sys", "m", "general", 0, 0⟩ :
          Session) with last_access := 7 }
    ∧ (∀ sid2, sid2 ≠ "s1" →
        lookupSession (getHistory
          (singletonState 3 [⟨Role.user, "a".toList, 0⟩] "sys" "general" 0)
          "s1" 7).2.sessions sid2
          = lookupSession (singletonState 3 [⟨Role.user, "a".toList, 0⟩]
              "sys" "general" 0).sessions sid2)
    ∧ (getHistory (singletonState 3 [⟨Role.user, "a".toList, 0⟩] "sys"
        "general" 0) "s1" 7).2.models
      = (singletonState 3 [⟨Role.user, "a".toList, 0⟩] "sys" "general" 0).models
    ∧ (getHistory (singletonState 3 [⟨Role.user, "a".toList, 0⟩] "sys"
        "general" 0) "s1" 7).2.max_sessions
      = (singletonState 3 [⟨Role.user, "a".toList, 0⟩] "sys" "general" 0).max_sessions :=
  C10_get_history_effect
    (singletonState 3 [⟨Role.user, "a".toList, 0⟩] "sys" "general" 0) "s1" 7
    ⟨[⟨Role.user, "a".toList, 0⟩], "sys", "m", "general", 0, 0⟩ rfl

end OVChat
